import Mathlib

/-!
# Verification of the op-dotenv .env parser/serializer

Shallow embedding of the core text-format parser and serializer of
op-dotenv (`internal/ui.go`: `getFieldType`, `ParseEnvFileToItem`,
`WriteItemToEnvFile`).

Strings are modelled as `List Char`.  A file's text content is modelled as
the list of its lines, exactly as `bufio.Scanner` delivers them to the Go
parser (no trailing newline in a line).  File I/O errors are out of scope:
the Go functions are total on the text content itself.

`WriteItemToEnvFile` iterates a Go `map[string][]Field`.  A Go map's
contents are exactly the key/bucket association built by insertion (the
bucket for each key preserves append order), but the `range` iteration
order of the keys is unspecified.  We therefore model the map's contents
as an order-preserving association list (`buildGroups`, faithful to its
contents) and pass the key iteration order as an explicit parameter
`order`; a run of the Go code corresponds to some `order` that is a
permutation of the map's keys.
-/

namespace OpDotenv

/-- Strings, modelled as lists of characters. -/
abbrev Str := List Char

/-- Convert a Lean string literal to the character-list model. -/
def str (s : String) : Str := s.data

/-- Go `unicode.IsSpace`, the cutset of `strings.TrimSpace`: the Unicode
`White_Space` characters TAB, LF, VT, FF, CR, SPACE, NEL (U+0085), NBSP
(U+00A0), OGHAM SPACE MARK (U+1680), EN QUAD through HAIR SPACE
(U+2000..U+200A), LINE SEPARATOR, PARAGRAPH SEPARATOR, NARROW NO-BREAK
SPACE (U+202F), MEDIUM MATHEMATICAL SPACE (U+205F), and IDEOGRAPHIC SPACE
(U+3000). -/
def isSpace (c : Char) : Bool :=
  c == '\t' || c == '\n' || c == '\x0b' || c == '\x0c' || c == '\r' || c == ' ' ||
  c == '\u0085' || c == '\u00A0' || c == '\u1680' ||
  ('\u2000' ≤ c && c ≤ '\u200A') ||
  c == '\u2028' || c == '\u2029' || c == '\u202F' || c == '\u205F' || c == '\u3000'

/-- The character class `\s` of Go's RE2 regexps (Perl whitespace):
exactly `[\t\n\f\r ]`.  Note this is strictly smaller than
`unicode.IsSpace`: it contains neither VT (U+000B) nor any character
above U+007F. -/
def reSpace (c : Char) : Bool :=
  c == '\t' || c == '\n' || c == '\x0c' || c == '\r' || c == ' '

/-- The cutset of `strings.Trim(value, "'`  `\"")`: single or double quote. -/
def isQuote (c : Char) : Bool := c == '\'' || c == '"'

/-- First character class `[A-Z_]` of the variable regexp. -/
def isKeyStart (c : Char) : Bool := ('A' ≤ c && c ≤ 'Z') || c == '_'

/-- Continuation character class `[A-Z0-9_]` of the variable regexp. -/
def isKeyChar (c : Char) : Bool := isKeyStart c || ('0' ≤ c && c ≤ '9')

/-- Drop the characters satisfying `p` from both ends of a list.  This is
the shape of Go's `strings.TrimSpace` and `strings.Trim`. -/
def dropAround (p : Char → Bool) (l : Str) : Str :=
  ((l.dropWhile p).reverse.dropWhile p).reverse

/-- Go `strings.TrimSpace` (ASCII fragment). -/
def trimSpace (l : Str) : Str := dropAround isSpace l

/-- Go `strings.Trim(v, "'`  `\"")`: strips every leading and trailing quote
character (either kind, any number). -/
def trimQuotes (l : Str) : Str := dropAround isQuote l

/-- Go regexp `^#\s*-+\s*$` (`headerStartPattern`): `#`, then `\s*`
(`reSpace`, the RE2 Perl class), then one or more dashes, then `\s*` to
end of line. -/
def headerStartMatch (l : Str) : Bool :=
  match l with
  | [] => false
  | c :: rest =>
    c == '#' &&
      (let r := rest.dropWhile reSpace
       let d := r.takeWhile (fun x => x == '-')
       !d.isEmpty && (r.drop d.length).all reSpace)

/-- Go regexp `^([A-Z_][A-Z0-9_]*)=(.*)$` (`varPattern`): on success,
returns (KEY, VALUE). -/
def kvMatch (l : Str) : Option (Str × Str) :=
  match l with
  | [] => none
  | c :: rest =>
    if isKeyStart c then
      let rem := rest.dropWhile isKeyChar
      if rem.head? = some '=' then
        some (c :: rest.takeWhile isKeyChar, rem.tail)
      else none
    else none

/-- The keyword list of `getFieldType` in `internal/ui.go`. -/
def passwordKeywords : List Str :=
  [str "PASSWORD", str "PASS", str "SECRET", str "KEY", str "TOKEN",
   str "AUTH", str "CREDENTIAL", str "HASH", str "SALT"]

/-- `getFieldType` from `internal/ui.go`: a field is CONCEALED iff its
upper-cased name contains one of the password keywords as a substring. -/
def getFieldType (fieldName : Str) : Str :=
  if passwordKeywords.any (fun kw => decide (kw <:+: fieldName.map Char.toUpper)) then
    str "CONCEALED"
  else
    str "STRING"

/-- `onepassword.OnePasswordField` (the fields the parser/serializer use).
`Section` models the Go `map[string]interface{}{"label": s}` as the label
itself; `none` is Go `nil`.  `Typ` is the Go field `Type`. -/
structure OnePasswordField where
  ID : Str := []
  Typ : Str := []
  Label : Str := []
  Value : Str := []
  Section : Option Str := none
deriving DecidableEq, Repr

/-- `onepassword.OnePasswordItem` (title and field sequence). -/
structure OnePasswordItem where
  Title : Str := []
  Fields : List OnePasswordField := []
deriving DecidableEq, Repr

/-- The loop state of `ParseEnvFileToItem`'s scan. -/
structure ScanState where
  currentSection : Str := []
  inHeader : Bool := false
  headerLines : List Str := []
  fields : List OnePasswordField := []
deriving DecidableEq, Repr

/-- Initial scan state of `ParseEnvFileToItem`. -/
def initState : ScanState := {}

/-- One iteration of the scan loop of `ParseEnvFileToItem` on one raw
input line.  The section label is the capture of `^#\s*(.+)\s*$`
(`sectionPattern`): the line's tail with its `\s*` prefix removed
(`reSpace`, the RE2 class; the greedy leftmost-first `(.+)` takes the
rest of the line), then passed through `strings.TrimSpace`
(`isSpace`). -/
def scanLine (s : ScanState) (raw : Str) : ScanState :=
  let line := trimSpace raw
  if line = [] then s
  else if headerStartMatch line then { s with inHeader := !s.inHeader }
  else if s.inHeader then
    if line.head? = some '#' then
      { s with headerLines := s.headerLines ++ [line.tail] }
    else s
  else if line.head? = some '#' then
    if line.tail = [] then s
    else { s with currentSection := trimSpace (line.tail.dropWhile reSpace) }
  else
    match kvMatch line with
    | some kv =>
      { s with fields := s.fields ++
          [{ ID := [], Typ := getFieldType kv.1, Label := kv.1,
             Value := trimQuotes kv.2,
             Section := if s.currentSection = [] then none
                        else some s.currentSection }] }
    | none => s

/-- The full scan loop of `ParseEnvFileToItem`. -/
def scanLines (lines : List Str) : ScanState :=
  lines.foldl scanLine initState

/-- The reserved identifier of the synthetic notes field. -/
def notesPlainId : Str := str "notesPlain"

/-- `ParseEnvFileToItem` from `internal/ui.go`, on the file's lines. -/
def ParseEnvFileToItem (lines : List Str) (itemTitle : Str) : OnePasswordItem :=
  let s := scanLines lines
  { Title := itemTitle,
    Fields := s.fields ++
      (if s.headerLines = [] then []
       else [{ ID := notesPlainId, Typ := str "STRING", Label := notesPlainId,
               Value := List.intercalate ['\n'] s.headerLines, Section := none }]) }

/-- The notes extraction loop of `WriteItemToEnvFile`: the value of the
last field whose ID is "notesPlain", else the empty string. -/
def notesOf (fields : List OnePasswordField) : Str :=
  fields.foldl (fun n f => if f.ID = notesPlainId then f.Value else n) []

/-- The section name `WriteItemToEnvFile` reads off a field: the label of
its section map, or "" when the section is nil. -/
def sectionNameOf (f : OnePasswordField) : Str := f.Section.getD []

/-- `sections[key] = append(sections[key], f)` on the association-list
model of the Go map: append to the existing bucket, else add a new key. -/
def insertGroup (g : List (Str × List OnePasswordField)) (key : Str)
    (f : OnePasswordField) : List (Str × List OnePasswordField) :=
  match g with
  | [] => [(key, [f])]
  | (k, fs) :: rest =>
    if k = key then (k, fs ++ [f]) :: rest
    else (k, fs) :: insertGroup rest key f

/-- The grouping loop of `WriteItemToEnvFile`: skip the notes field, skip
empty-valued fields, bucket the rest under their section name. -/
def buildGroups (fields : List OnePasswordField) :
    List (Str × List OnePasswordField) :=
  fields.foldl
    (fun g f =>
      if f.ID = notesPlainId then g
      else if f.Value = [] then g
      else insertGroup g (sectionNameOf f) f) []

/-- Go map read `sections[key]` (absent key reads as the empty bucket). -/
def lookupGroup (g : List (Str × List OnePasswordField)) (key : Str) :
    List OnePasswordField :=
  match g with
  | [] => []
  | (k, fs) :: rest => if k = key then fs else lookupGroup rest key

/-- The key set of the Go `sections` map, in first-insertion order. -/
def sectionKeys (item : OnePasswordItem) : List Str :=
  (buildGroups item.Fields).map Prod.fst

/-- One emitted variable line: `NAME='VALUE'`. -/
def varLine (f : OnePasswordField) : Str :=
  f.Label ++ '=' :: '\'' :: (f.Value ++ ['\''])

/-- The fixed header delimiter line `# ` + 44 dashes. -/
def headerDashLine : Str := '#' :: ' ' :: List.replicate 44 '-'

/-- A `# `-prefixed comment line (note line or section marker). -/
def hashLine (l : Str) : Str := '#' :: ' ' :: l

/-- `WriteItemToEnvFile` from `internal/ui.go`, producing the emitted
lines.  `order` is the iteration order of the keys of the Go `sections`
map: the Go runtime supplies some permutation of the map's keys. -/
def WriteItemToEnvFile (item : OnePasswordItem) (order : List Str) : List Str :=
  let notes := notesOf item.Fields
  let groups := buildGroups item.Fields
  let headerPart : List Str :=
    if notes = [] then []
    else
      [headerDashLine] ++
        (notes.splitOn '\n').filterMap
          (fun l => if trimSpace l = [] then none else some (hashLine l)) ++
        [headerDashLine, []]
  let ungrouped := lookupGroup groups []
  let ungroupedPart : List Str :=
    if ungrouped = [] then [] else ungrouped.map varLine ++ [[]]
  let sectionPart : List Str :=
    order.flatMap (fun k =>
      if k = [] then []
      else
        let fs := lookupGroup groups k
        if fs = [] then [] else [hashLine k] ++ fs.map varLine ++ [[]])
  headerPart ++ ungroupedPart ++ sectionPart

/-- The bytes written to the file: every emitted line followed by `\n`. -/
def render (lines : List Str) : Str :=
  (lines.map (fun l => l ++ ['\n'])).flatten

/-- The {name, sensitivity, value, section} tuple of one field. -/
def tupleOf (f : OnePasswordField) : Str × Str × Str × Option Str :=
  (f.Label, f.Typ, f.Value, f.Section)

/-- All {name, sensitivity, value, section} tuples of an item. -/
def envTuples (item : OnePasswordItem) : List (Str × Str × Str × Option Str) :=
  item.Fields.map tupleOf

/-- The non-notes fields with non-empty value (the fields the serializer
emits). -/
def liveFields (item : OnePasswordItem) : List OnePasswordField :=
  item.Fields.filter (fun f => decide (f.ID ≠ notesPlainId) && decide (f.Value ≠ []))

/-- The {name, sensitivity, value, section} tuples of the non-notes,
non-empty-valued fields of an item. -/
def liveTuples (item : OnePasswordItem) : List (Str × Str × Str × Option Str) :=
  (liveFields item).map tupleOf

/-- The shape of a key produced by `kvMatch`: `[A-Z_][A-Z0-9_]*`. -/
def keyShape (l : Str) : Bool :=
  match l with
  | [] => false
  | c :: cs => isKeyStart c && cs.all isKeyChar

/-- A value that carries no quote character at either end (the normal form
`trimQuotes` produces). -/
def GoodValue (v : Str) : Prop :=
  (∀ c, v.head? = some c → isQuote c = false) ∧
  (∀ c, v.getLast? = some c → isQuote c = false)

/-- A section label as the parser produces it: non-empty and trimmed.
(The parser can produce a label whose marker line `# label` matches the
header delimiter — e.g. from the input line `#` + VT + `---` — so that
fact is not part of the invariant and must be assumed where needed.) -/
def GoodKey (k : Str) : Prop :=
  k ≠ [] ∧ trimSpace k = k

/-- The invariant of every field the scan loop appends. -/
def GoodField (f : OnePasswordField) : Prop :=
  f.ID = [] ∧ f.Typ = getFieldType f.Label ∧ keyShape f.Label = true ∧
  GoodValue f.Value ∧
  (f.Section = none ∨ ∃ k, f.Section = some k ∧ GoodKey k)

/-- The invariant of every collected header note line. -/
def GoodEntry (e : Str) : Prop :=
  '\n' ∉ e ∧ (∀ c, e.getLast? = some c → isSpace c = false) ∧
  headerStartMatch (hashLine e) = false

/-- The scan-loop invariant. -/
def GoodState (s : ScanState) : Prop :=
  (∀ f ∈ s.fields, GoodField f) ∧
  (s.currentSection = [] ∨ GoodKey s.currentSection) ∧
  (∀ e ∈ s.headerLines, GoodEntry e)

/-- The item-level facts the round-trip argument needs: live fields are
well-formed and the notes text splits into reparse-safe lines. -/
def GoodItem (item : OnePasswordItem) : Prop :=
  (∀ f ∈ item.Fields, f.ID ≠ notesPlainId → f.Value ≠ [] → GoodField f) ∧
  (∀ nl ∈ (notesOf item.Fields).splitOn '\n',
     (∀ c, nl.getLast? = some c → isSpace c = false) ∧
     headerStartMatch (hashLine nl) = false)

/-- The recognized-construct classifier of the spec: blank line, header
delimiter, in-header comment, section marker, or KEY=VALUE match (the two
latter relative to the current scan state). -/
def recognizedLine (s : ScanState) (raw : Str) : Bool :=
  let line := trimSpace raw
  decide (line = []) || headerStartMatch line ||
    (s.inHeader && line.head? == some '#') ||
    (!s.inHeader && line.head? == some '#' && !headerStartMatch line &&
      !(line.tail == [])) ||
    (!s.inHeader && (kvMatch line).isSome)

/-- Every field without a section label precedes every field with one. -/
def NoneBeforeSome (l : List OnePasswordField) : Prop :=
  ∀ (i j : Nat) (hi : i < l.length) (hj : j < l.length), i < j →
    (l.get ⟨j, hj⟩).Section = none → (l.get ⟨i, hi⟩).Section = none

/-- The quote-stripping rule exactly as the spec claim words it: strip one
surrounding layer iff the first and last characters of VALUE are the same
quote character; otherwise leave VALUE unchanged. -/
def stripOneQuoteLayer (v : Str) : Str :=
  match v.head?, v.getLast? with
  | some a, some b =>
    if a = b ∧ isQuote a = true ∧ 2 ≤ v.length then (v.drop 1).dropLast else v
  | _, _ => v

/-- The record with its empty-valued ordinary fields removed (the notes
field is kept: the serializer reads it before the empty-value check). -/
def dropEmptyFields (item : OnePasswordItem) : OnePasswordItem :=
  { item with
    Fields := item.Fields.filter
      (fun f => decide (f.ID = notesPlainId) || decide (f.Value ≠ [])) }

/-- The single-quote character. -/
def squote : Char := '\''

/-- The concrete VALUE text `''x''` (two quote layers around `x`). -/
def doubleQuoted : Str := [squote, squote, 'x', squote, squote]

/-- Concrete record whose field sequence introduces section
"Email Settings" before "Redis Configuration". -/
def emailRedisItem : OnePasswordItem :=
  { Title := str "test",
    Fields :=
      [{ ID := [], Typ := str "STRING", Label := str "SMTP_HOST",
         Value := str "smtp.gmail.com", Section := some (str "Email Settings") },
       { ID := [], Typ := str "STRING", Label := str "REDIS_HOST",
         Value := str "localhost", Section := some (str "Redis Configuration") }] }

/-- Concrete record with a notes field and one plain variable. -/
def notesItem : OnePasswordItem :=
  { Title := str "test",
    Fields :=
      [{ ID := notesPlainId, Typ := str "STRING", Label := notesPlainId,
         Value := str "X", Section := none },
       { ID := [], Typ := str "STRING", Label := str "A",
         Value := str "1", Section := none }] }

/-- Concrete input lines: a header block with one note line. -/
def headerNoteLines : List Str := [str "# ---", str "# X", str "# ---"]

/-- Concrete input lines: a header block, a section marker, one variable. -/
def sectionNotesLines : List Str :=
  [str "# ---", str "# X", str "# ---", str "# S", str "A=1"]

/-- Concrete input lines: one variable line with an empty value. -/
def emptyValueLines : List Str := [str "FOO="]

/-! ## Generic trimming lemmas -/

theorem head?_dropWhile_not (p : Char → Bool) (l : Str) (c : Char)
    (h : (l.dropWhile p).head? = some c) : p c = false := by
  induction l with
  | nil => simp [List.dropWhile] at h
  | cons a t ih =>
    rw [List.dropWhile_cons] at h
    by_cases ha : p a
    · rw [if_pos ha] at h; exact ih h
    · rw [if_neg ha] at h
      simp only [List.head?_cons, Option.some.injEq] at h
      subst h
      exact Bool.eq_false_iff.mpr ha

theorem dropWhile_eq_self_of_head (p : Char → Bool) (l : Str)
    (h : ∀ c, l.head? = some c → p c = false) : l.dropWhile p = l := by
  cases l with
  | nil => rfl
  | cons a t =>
    rw [List.dropWhile_cons, if_neg]
    simp [h a rfl]

theorem dropAround_head?_not (p : Char → Bool) (l : Str) (c : Char)
    (h : (dropAround p l).head? = some c) : p c = false := by
  unfold dropAround at h
  rw [List.head?_reverse] at h
  have hsuf := (List.dropWhile_suffix p :
      List.IsSuffix ((l.dropWhile p).reverse.dropWhile p) (l.dropWhile p).reverse)
  obtain ⟨t, ht⟩ := hsuf
  have hx : ((l.dropWhile p).reverse.dropWhile p) ≠ [] := by
    intro hnil; rw [hnil] at h; simp at h
  have : (l.dropWhile p).reverse.getLast? = some c := by
    rw [← ht, List.getLast?_append, h]; rfl
  rw [List.getLast?_reverse] at this
  exact head?_dropWhile_not p _ c this

theorem dropAround_getLast?_not (p : Char → Bool) (l : Str) (c : Char)
    (h : (dropAround p l).getLast? = some c) : p c = false := by
  unfold dropAround at h
  rw [List.getLast?_reverse] at h
  exact head?_dropWhile_not p _ c h

theorem dropAround_eq_self (p : Char → Bool) (l : Str)
    (h1 : ∀ c, l.head? = some c → p c = false)
    (h2 : ∀ c, l.getLast? = some c → p c = false) : dropAround p l = l := by
  unfold dropAround
  rw [dropWhile_eq_self_of_head p l h1]
  rw [dropWhile_eq_self_of_head p l.reverse (by
    intro c hc
    rw [List.head?_reverse] at hc
    exact h2 c hc)]
  exact l.reverse_reverse

theorem dropAround_idem (p : Char → Bool) (l : Str) :
    dropAround p (dropAround p l) = dropAround p l :=
  dropAround_eq_self p _ (dropAround_head?_not p l) (dropAround_getLast?_not p l)

theorem dropAround_sublist (p : Char → Bool) (l : Str) :
    List.Sublist (dropAround p l) l := by
  unfold dropAround
  have h1 : List.Sublist ((l.dropWhile p).reverse.dropWhile p)
      (l.dropWhile p).reverse :=
    (List.dropWhile_suffix p).sublist
  have h2 : List.Sublist ((l.dropWhile p).reverse.dropWhile p).reverse
      (l.dropWhile p) := by
    have := h1.reverse
    rwa [List.reverse_reverse] at this
  exact h2.trans (List.dropWhile_sublist p)

theorem mem_of_mem_dropAround (p : Char → Bool) (l : Str) (c : Char)
    (h : c ∈ dropAround p l) : c ∈ l :=
  (dropAround_sublist p l).mem h

theorem trimSpace_head?_not (l : Str) (c : Char)
    (h : (trimSpace l).head? = some c) : isSpace c = false :=
  dropAround_head?_not isSpace l c h

theorem trimSpace_getLast?_not (l : Str) (c : Char)
    (h : (trimSpace l).getLast? = some c) : isSpace c = false :=
  dropAround_getLast?_not isSpace l c h

theorem trimSpace_eq_self (l : Str)
    (h1 : ∀ c, l.head? = some c → isSpace c = false)
    (h2 : ∀ c, l.getLast? = some c → isSpace c = false) : trimSpace l = l :=
  dropAround_eq_self isSpace l h1 h2

/-! ## Character-class lemmas -/

theorem keyStart_not_space (c : Char) (h : isKeyStart c = true) :
    isSpace c = false := by
  unfold isKeyStart at h
  rw [Bool.or_eq_true] at h
  rcases h with h | h
  · rw [Bool.and_eq_true] at h
    obtain ⟨hA, hZ⟩ := h
    rw [decide_eq_true_eq] at hA
    rw [decide_eq_true_eq] at hZ
    by_contra hsp
    rw [Bool.not_eq_false] at hsp
    unfold isSpace at hsp
    simp only [Bool.or_eq_true, Bool.and_eq_true, beq_iff_eq,
      decide_eq_true_eq] at hsp
    rcases hsp with
      (((((((((((((h | h) | h) | h) | h) | h) | h) | h) | h) | hr) | h) | h)
        | h) | h) | h <;>
      first
        | (subst h; exact absurd hA (by decide))
        | (subst h; exact absurd hZ (by decide))
        | exact absurd (le_trans hr.1 hZ) (by decide)
  · rw [beq_iff_eq] at h
    subst h
    decide

theorem reSpace_isSpace (c : Char) (h : reSpace c = true) : isSpace c = true := by
  unfold reSpace at h
  simp only [Bool.or_eq_true, beq_iff_eq] at h
  rcases h with (((h | h) | h) | h) | h <;> subst h <;> decide

theorem not_reSpace_of_not_isSpace (c : Char) (h : isSpace c = false) :
    reSpace c = false := by
  by_contra hcon
  rw [Bool.not_eq_false] at hcon
  rw [reSpace_isSpace c hcon] at h
  exact absurd h (by decide)

theorem keyStart_ne_hash (c : Char) (h : isKeyStart c = true) : c ≠ '#' := by
  intro hc
  subst hc
  exact absurd h (by decide)

/-! ## `kvMatch` lemmas -/

theorem kvMatch_cons (c : Char) (rest : Str) :
    kvMatch (c :: rest) =
      if isKeyStart c then
        (if (rest.dropWhile isKeyChar).head? = some '=' then
          some (c :: rest.takeWhile isKeyChar, (rest.dropWhile isKeyChar).tail)
         else none)
      else none := rfl

theorem kvMatch_some (l k v : Str) (h : kvMatch l = some (k, v)) :
    keyShape k = true ∧ l = k ++ '=' :: v := by
  cases l with
  | nil => simp [kvMatch] at h
  | cons c rest =>
    rw [kvMatch_cons] at h
    by_cases hc : isKeyStart c = true
    · rw [if_pos hc] at h
      by_cases hd : (rest.dropWhile isKeyChar).head? = some '='
      · rw [if_pos hd] at h
        simp only [Option.some.injEq, Prod.mk.injEq] at h
        obtain ⟨hk, hv⟩ := h
        subst hk; subst hv
        obtain ⟨w, hw⟩ := List.head?_eq_some_iff.mp hd
        constructor
        · unfold keyShape
          rw [Bool.and_eq_true]
          refine ⟨hc, ?_⟩
          rw [List.all_eq_true]
          intro x hx
          exact List.mem_takeWhile_imp hx
        · have hsplit := List.takeWhile_append_dropWhile isKeyChar rest
          rw [hw] at hsplit ⊢
          simp only [List.tail_cons, List.cons_append]
          rw [hsplit]
      · rw [if_neg hd] at h
        exact absurd h (by simp)
    · rw [if_neg hc] at h
      exact absurd h (by simp)

theorem kvMatch_build (k w : Str) (hk : keyShape k = true) :
    kvMatch (k ++ '=' :: w) = some (k, w) := by
  cases k with
  | nil => simp [keyShape] at hk
  | cons c cs =>
    unfold keyShape at hk
    rw [Bool.and_eq_true, List.all_eq_true] at hk
    obtain ⟨hc, hcs⟩ := hk
    simp only [List.cons_append]
    rw [kvMatch_cons, if_pos hc]
    rw [List.dropWhile_append_of_pos hcs, List.takeWhile_append_of_pos hcs]
    rw [List.dropWhile_cons, if_neg (by decide : ¬ (isKeyChar '=' = true))]
    rw [List.takeWhile_cons, if_neg (by decide : ¬ (isKeyChar '=' = true))]
    simp

/-! ## Line-shape helper lemmas -/

theorem trimmed_head?_not (l : Str) (h : trimSpace l = l) :
    ∀ c, l.head? = some c → isSpace c = false := by
  intro c hc
  apply trimSpace_head?_not l c
  rw [h]
  exact hc

theorem trimmed_getLast?_not (l : Str) (h : trimSpace l = l) :
    ∀ c, l.getLast? = some c → isSpace c = false := by
  intro c hc
  apply trimSpace_getLast?_not l c
  rw [h]
  exact hc

theorem getLast?_hashLine (l : Str) (h : l ≠ []) :
    (hashLine l).getLast? = l.getLast? := by
  cases l with
  | nil => exact absurd rfl h
  | cons a t =>
    unfold hashLine
    rw [List.getLast?_cons_cons, List.getLast?_cons_cons]

theorem trimSpace_hashLine (l : Str) (h : l ≠ [])
    (hlast : ∀ c, l.getLast? = some c → isSpace c = false) :
    trimSpace (hashLine l) = hashLine l := by
  apply trimSpace_eq_self
  · intro c hc
    unfold hashLine at hc
    simp only [List.head?_cons, Option.some.injEq] at hc
    subst hc
    decide
  · intro c hc
    rw [getLast?_hashLine l h] at hc
    exact hlast c hc

theorem headerStartMatch_eq_false_of_head (l : Str) (c : Char)
    (h : l.head? = some c) (hc : c ≠ '#') : headerStartMatch l = false := by
  cases l with
  | nil => rfl
  | cons a t =>
    simp only [List.head?_cons, Option.some.injEq] at h
    subst h
    unfold headerStartMatch
    simp [hc]

theorem trimSpace_varLine (f : OnePasswordField) (hks : keyShape f.Label = true) :
    trimSpace (varLine f) = varLine f := by
  cases hl : f.Label with
  | nil => rw [hl] at hks; simp [keyShape] at hks
  | cons c cs =>
    rw [hl] at hks
    unfold keyShape at hks
    rw [Bool.and_eq_true] at hks
    apply trimSpace_eq_self
    · intro d hd
      unfold varLine at hd
      rw [hl] at hd
      simp only [List.cons_append, List.head?_cons, Option.some.injEq] at hd
      rw [← hd]
      exact keyStart_not_space c hks.1
    · intro d hd
      unfold varLine at hd
      have hre : f.Label ++ '=' :: '\'' :: (f.Value ++ ['\'']) =
          (f.Label ++ '=' :: '\'' :: f.Value) ++ ['\''] := by
        simp [List.append_assoc]
      rw [hre, List.getLast?_concat] at hd
      simp only [Option.some.injEq] at hd
      rw [← hd]
      decide

theorem varLine_head (f : OnePasswordField) (c : Char) (cs : Str)
    (hl : f.Label = c :: cs) : (varLine f).head? = some c := by
  unfold varLine
  rw [hl]
  simp

/-! ## Single-step scan lemmas -/

theorem scanLine_blank (s : ScanState) (raw : Str) (h : trimSpace raw = []) :
    scanLine s raw = s := by
  simp only [scanLine, h]
  simp

theorem scanLine_delim (s : ScanState) (raw : Str) (h : trimSpace raw = raw)
    (hm : headerStartMatch raw = true) :
    scanLine s raw = { s with inHeader := !s.inHeader } := by
  have hne : raw ≠ [] := by
    intro hnil
    rw [hnil] at hm
    exact absurd hm (by decide)
  simp only [scanLine, h]
  rw [if_neg hne, if_pos hm]

theorem scanLine_headerCollect (s : ScanState) (raw : Str)
    (hH : s.inHeader = true) (h : trimSpace raw = raw) (hne : raw ≠ [])
    (hm : headerStartMatch raw = false) (hhash : raw.head? = some '#') :
    scanLine s raw = { s with headerLines := s.headerLines ++ [raw.tail] } := by
  simp only [scanLine, h]
  rw [if_neg hne, if_neg (by rw [hm]; exact Bool.false_ne_true), if_pos hH,
    if_pos hhash]

theorem scanLine_headerSkip (s : ScanState) (raw : Str)
    (hH : s.inHeader = true) (h : trimSpace raw = raw) (hne : raw ≠ [])
    (hm : headerStartMatch raw = false) (hhash : raw.head? ≠ some '#') :
    scanLine s raw = s := by
  simp only [scanLine, h]
  rw [if_neg hne, if_neg (by rw [hm]; exact Bool.false_ne_true), if_pos hH,
    if_neg hhash]

theorem scanLine_marker (s : ScanState) (k : Str) (hH : s.inHeader = false)
    (hk : GoodKey k) (hnd : headerStartMatch (hashLine k) = false) :
    scanLine s (hashLine k) = { s with currentSection := k } := by
  obtain ⟨hne, htr⟩ := hk
  have htl : trimSpace (hashLine k) = hashLine k :=
    trimSpace_hashLine k hne (trimmed_getLast?_not k htr)
  have hdw : (' ' :: k).dropWhile reSpace = k := by
    rw [List.dropWhile_cons, if_pos (by decide : reSpace ' ' = true)]
    exact dropWhile_eq_self_of_head reSpace k
      (fun c hc => not_reSpace_of_not_isSpace c (trimmed_head?_not k htr c hc))
  simp only [scanLine, htl]
  rw [if_neg (by simp [hashLine]), if_neg (by rw [hnd]; exact Bool.false_ne_true),
    if_neg (by rw [hH]; exact Bool.false_ne_true),
    if_pos (by simp [hashLine]),
    if_neg (by simp [hashLine])]
  simp only [hashLine, List.tail_cons]
  rw [hdw, htr]

theorem scanLine_varLine (s : ScanState) (f : OnePasswordField)
    (hH : s.inHeader = false)
    (hid : f.ID = []) (hty : f.Typ = getFieldType f.Label)
    (hks : keyShape f.Label = true) (hgv : GoodValue f.Value) (hv : f.Value ≠ [])
    (hsec : f.Section = if s.currentSection = [] then none
                        else some s.currentSection) :
    scanLine s (varLine f) = { s with fields := s.fields ++ [f] } := by
  obtain ⟨c, cs, hl⟩ : ∃ c cs, f.Label = c :: cs := by
    cases hl : f.Label with
    | nil => rw [hl] at hks; simp [keyShape] at hks
    | cons c cs => exact ⟨c, cs, rfl⟩
  have hcstart : isKeyStart c = true := by
    rw [hl] at hks
    unfold keyShape at hks
    rw [Bool.and_eq_true] at hks
    exact hks.1
  rw [hl] at hks
  have hks' : keyShape f.Label = true := by rw [hl]; exact hks
  have htl : trimSpace (varLine f) = varLine f := trimSpace_varLine f hks'
  have hhead : (varLine f).head? = some c := varLine_head f c cs hl
  have hne : varLine f ≠ [] := by
    intro hnil
    rw [hnil] at hhead
    exact absurd hhead (by simp)
  have hnh : headerStartMatch (varLine f) = false :=
    headerStartMatch_eq_false_of_head _ c hhead (keyStart_ne_hash c hcstart)
  have hkv : kvMatch (varLine f) = some (f.Label, '\'' :: (f.Value ++ ['\''])) := by
    unfold varLine
    exact kvMatch_build f.Label ('\'' :: (f.Value ++ ['\''])) hks'
  have htq : trimQuotes ('\'' :: (f.Value ++ ['\''])) = f.Value := by
    obtain ⟨a, t, hvt⟩ : ∃ a t, f.Value = a :: t := by
      cases hvv : f.Value with
      | nil => exact absurd hvv hv
      | cons a t => exact ⟨a, t, rfl⟩
    unfold trimQuotes dropAround
    rw [List.dropWhile_cons, if_pos (by decide : isQuote '\'' = true)]
    have h1 : (f.Value ++ ['\'']).dropWhile isQuote = f.Value ++ ['\''] := by
      rw [hvt, List.cons_append, List.dropWhile_cons,
        if_neg (by simp [hgv.1 a (by rw [hvt]; rfl)])]
    rw [h1]
    have h2 : (f.Value ++ ['\'']).reverse = '\'' :: f.Value.reverse := by
      simp
    rw [h2, List.dropWhile_cons, if_pos (by decide : isQuote '\'' = true)]
    have h3 : f.Value.reverse.dropWhile isQuote = f.Value.reverse := by
      apply dropWhile_eq_self_of_head
      intro d hd
      rw [List.head?_reverse] at hd
      exact hgv.2 d hd
    rw [h3, List.reverse_reverse]
  have hno : (varLine f).head? ≠ some '#' := by
    rw [hhead]
    intro hcon
    simp only [Option.some.injEq] at hcon
    exact keyStart_ne_hash c hcstart hcon
  simp only [scanLine, htl]
  rw [if_neg hne, if_neg (by rw [hnh]; exact Bool.false_ne_true),
    if_neg (by rw [hH]; exact Bool.false_ne_true), if_neg hno, hkv]
  simp only [htq]
  rw [← hsec, ← hid, ← hty]

/-! ## Delimiter and section-payload lemmas -/

theorem headerStartMatch_cons_hash (rest : Str) :
    headerStartMatch ('#' :: rest) =
      (let r := rest.dropWhile reSpace
       let d := r.takeWhile (fun x => x == '-')
       !d.isEmpty && (r.drop d.length).all reSpace) := by
  unfold headerStartMatch
  simp

theorem headerStartMatch_hashLine_eq (e : Str) :
    headerStartMatch (hashLine e) = headerStartMatch ('#' :: e) := by
  unfold hashLine
  rw [headerStartMatch_cons_hash, headerStartMatch_cons_hash]
  rw [List.dropWhile_cons, if_pos (by decide : reSpace ' ' = true)]

theorem drop_length_takeWhile (p : Char → Bool) (l : Str) :
    l.drop (l.takeWhile p).length = l.dropWhile p := by
  induction l with
  | nil => rfl
  | cons a t ih =>
    rw [List.takeWhile_cons, List.dropWhile_cons]
    by_cases ha : p a
    · rw [if_pos ha, if_pos ha, List.length_cons, List.drop_succ_cons]
      exact ih
    · rw [if_neg ha, if_neg ha]
      simp

theorem dropWhile_idem (p : Char → Bool) (l : Str) :
    (l.dropWhile p).dropWhile p = l.dropWhile p :=
  dropWhile_eq_self_of_head p _ (head?_dropWhile_not p l)

theorem trimSpace_ne_nil_of_getLast (x : Str) (b : Char)
    (hb : x.getLast? = some b) (hsb : isSpace b = false) : trimSpace x ≠ [] := by
  intro hnil
  unfold trimSpace dropAround at hnil
  rw [List.reverse_eq_nil_iff] at hnil
  rw [List.dropWhile_eq_nil_iff] at hnil
  have hxd : x.dropWhile isSpace ≠ [] := by
    intro hd
    rw [List.dropWhile_eq_nil_iff] at hd
    have hbx : b ∈ x := List.mem_of_mem_getLast? (by rw [hb]; rfl)
    rw [hd b hbx] at hsb
    exact absurd hsb (by decide)
  have hlast : (x.dropWhile isSpace).getLast? = some b := by
    obtain ⟨t, ht⟩ := (List.dropWhile_suffix isSpace :
      List.IsSuffix (x.dropWhile isSpace) x)
    rw [← ht] at hb
    rw [List.getLast?_append] at hb
    cases hg : (x.dropWhile isSpace).getLast? with
    | none =>
      rw [List.getLast?_eq_none_iff] at hg
      exact absurd hg hxd
    | some c =>
      rw [hg] at hb
      simp only [Option.or_some] at hb
      exact hb
  have hbmem : b ∈ (x.dropWhile isSpace).reverse := by
    rw [List.mem_reverse]
    exact List.mem_of_mem_getLast? (by rw [hlast]; rfl)
  rw [hnil b hbmem] at hsb
  exact absurd hsb (by decide)

theorem goodKey_of_marker (rest : Str)
    (hne : trimSpace (rest.dropWhile reSpace) ≠ []) :
    GoodKey (trimSpace (rest.dropWhile reSpace)) :=
  ⟨hne, dropAround_idem isSpace _⟩

theorem hashLine_delim_iff (k : Str) (hne : k ≠ []) (htr : trimSpace k = k) :
    headerStartMatch (hashLine k) = true ↔ ∀ c ∈ k, c = '-' := by
  rw [headerStartMatch_hashLine_eq, headerStartMatch_cons_hash]
  rw [dropWhile_eq_self_of_head reSpace k
    (fun c hc => not_reSpace_of_not_isSpace c (trimmed_head?_not k htr c hc))]
  simp only [Bool.and_eq_true]
  rw [drop_length_takeWhile]
  constructor
  · rintro ⟨_, hd2⟩
    have hrem : k.dropWhile (fun x => x == '-') = [] := by
      cases hrr : k.dropWhile (fun x => x == '-') with
      | nil => rfl
      | cons a t =>
        exfalso
        have hsuf : List.IsSuffix (a :: t) k := by
          rw [← hrr]; exact List.dropWhile_suffix _
        obtain ⟨u, hu⟩ := hsuf
        obtain ⟨c, hc⟩ : ∃ c, (a :: t).getLast? = some c := by
          cases hg : (a :: t).getLast? with
          | none => rw [List.getLast?_eq_none_iff] at hg; exact absurd hg (by simp)
          | some c => exact ⟨c, rfl⟩
        have hlk : k.getLast? = some c := by
          rw [← hu, List.getLast?_append, hc]
          rfl
        have hcs : reSpace c = true := by
          rw [hrr, List.all_eq_true] at hd2
          exact hd2 c (List.mem_of_mem_getLast? (by rw [hc]; rfl))
        have hns : isSpace c = false := trimmed_getLast?_not k htr c hlk
        rw [reSpace_isSpace c hcs] at hns
        exact absurd hns (by decide)
    have hall := List.dropWhile_eq_nil_iff.mp hrem
    intro c hc
    have hcd : (c == '-') = true := hall c hc
    exact beq_iff_eq.mp hcd
  · intro hall
    have hdw : k.dropWhile (fun x => x == '-') = [] := by
      rw [List.dropWhile_eq_nil_iff]
      intro x hx
      exact beq_iff_eq.mpr (hall x hx)
    have htk : k.takeWhile (fun x => x == '-') = k := by
      rw [List.takeWhile_eq_self_iff]
      intro x hx
      exact beq_iff_eq.mpr (hall x hx)
    refine ⟨?_, ?_⟩
    · rw [htk]
      cases k with
      | nil => exact absurd rfl hne
      | cons a t => rfl
    · rw [hdw]
      rfl

/-! ## NoneBeforeSome lemmas -/

theorem NBS_of_all_none (l : List OnePasswordField)
    (h : ∀ g ∈ l, g.Section = none) : NoneBeforeSome l := by
  intro i j hi hj _ _
  exact h _ (l.get_mem i hi)

theorem NBS_append_some (l : List OnePasswordField) (f : OnePasswordField)
    (h : NoneBeforeSome l) (hf : f.Section ≠ none) :
    NoneBeforeSome (l ++ [f]) := by
  intro i j hi hj hij hjn
  have hlen : (l ++ [f]).length = l.length + 1 := by simp
  by_cases hjl : j < l.length
  · have hil : i < l.length := Nat.lt_trans hij hjl
    have hgj : (l ++ [f]).get ⟨j, hj⟩ = l.get ⟨j, hjl⟩ := by
      rw [List.get_append_left]
    have hgi : (l ++ [f]).get ⟨i, hi⟩ = l.get ⟨i, hil⟩ := by
      rw [List.get_append_left]
    rw [hgj] at hjn
    rw [hgi]
    exact h i j hil hjl hij hjn
  · exfalso
    have hj1 : j = l.length := by
      rw [hlen] at hj
      omega
    have hgj : (l ++ [f]).get ⟨j, hj⟩ = f := by
      subst hj1
      rw [List.get_append_right] <;> simp
    rw [hgj] at hjn
    exact hf hjn

/-! ## Scan-loop invariants -/

theorem scanLine_invA (s : ScanState) (raw : Str)
    (hA : (∀ f ∈ s.fields, GoodField f) ∧
      (s.currentSection = [] ∨ GoodKey s.currentSection) ∧
      (s.currentSection = [] → ∀ f ∈ s.fields, f.Section = none) ∧
      NoneBeforeSome s.fields) :
    (∀ f ∈ (scanLine s raw).fields, GoodField f) ∧
      ((scanLine s raw).currentSection = [] ∨
        GoodKey (scanLine s raw).currentSection) ∧
      ((scanLine s raw).currentSection = [] →
        ∀ f ∈ (scanLine s raw).fields, f.Section = none) ∧
      NoneBeforeSome (scanLine s raw).fields := by
  obtain ⟨hgf, hcs, hnone, hnbs⟩ := hA
  simp only [scanLine]
  by_cases h1 : trimSpace raw = []
  · rw [if_pos h1]; exact ⟨hgf, hcs, hnone, hnbs⟩
  · rw [if_neg h1]
    by_cases h2 : headerStartMatch (trimSpace raw) = true
    · rw [if_pos h2]; exact ⟨hgf, hcs, hnone, hnbs⟩
    · rw [if_neg h2]
      by_cases h3 : s.inHeader = true
      · rw [if_pos h3]
        by_cases h4 : (trimSpace raw).head? = some '#'
        · rw [if_pos h4]; exact ⟨hgf, hcs, hnone, hnbs⟩
        · rw [if_neg h4]; exact ⟨hgf, hcs, hnone, hnbs⟩
      · rw [if_neg h3]
        by_cases h4 : (trimSpace raw).head? = some '#'
        · rw [if_pos h4]
          by_cases h5 : (trimSpace raw).tail = []
          · rw [if_pos h5]; exact ⟨hgf, hcs, hnone, hnbs⟩
          · rw [if_neg h5]
            -- section marker: new currentSection is a GoodKey
            obtain ⟨t, hlt⟩ : ∃ t, trimSpace raw = '#' :: t := by
              cases hc : trimSpace raw with
              | nil => exact absurd hc h1
              | cons a t =>
                rw [hc] at h4
                simp only [List.head?_cons, Option.some.injEq] at h4
                exact ⟨t, by rw [h4]⟩
            have htail : (trimSpace raw).tail = t := by rw [hlt]; rfl
            have hlast : (trimSpace raw).getLast? = t.getLast? := by
              rw [hlt]
              cases ht : t with
              | nil => rw [ht] at htail; exact absurd htail h5
              | cons a u => rw [List.getLast?_cons_cons]
            have hkey : GoodKey (trimSpace (t.dropWhile reSpace)) := by
              apply goodKey_of_marker
              obtain ⟨b, hbv⟩ : ∃ b, t.getLast? = some b := by
                cases hg : t.getLast? with
                | none =>
                  rw [List.getLast?_eq_none_iff] at hg
                  rw [hg] at htail
                  exact absurd htail h5
                | some b => exact ⟨b, rfl⟩
              have hbs : isSpace b = false :=
                trimSpace_getLast?_not raw b (by rw [hlast]; exact hbv)
              have hdw : t.dropWhile reSpace ≠ [] := by
                intro hd
                rw [List.dropWhile_eq_nil_iff] at hd
                have hbm : b ∈ t := List.mem_of_mem_getLast? (by rw [hbv]; rfl)
                rw [reSpace_isSpace b (hd b hbm)] at hbs
                exact absurd hbs (by decide)
              have hlast2 : (t.dropWhile reSpace).getLast? = some b := by
                obtain ⟨u, hu⟩ := (List.dropWhile_suffix reSpace :
                  List.IsSuffix (t.dropWhile reSpace) t)
                rw [← hu, List.getLast?_append] at hbv
                cases hg : (t.dropWhile reSpace).getLast? with
                | none =>
                  rw [List.getLast?_eq_none_iff] at hg
                  exact absurd hg hdw
                | some c =>
                  rw [hg] at hbv
                  simp only [Option.or_some] at hbv
                  exact hbv
              exact trimSpace_ne_nil_of_getLast _ b hlast2 hbs
            rw [htail]
            refine ⟨hgf, Or.inr hkey, ?_, hnbs⟩
            intro hceq
            exact absurd hceq hkey.1
        · rw [if_neg h4]
          cases hkv : kvMatch (trimSpace raw) with
          | none => simp only []; exact ⟨hgf, hcs, hnone, hnbs⟩
          | some kv =>
            simp only []
            have hkv2 : kvMatch (trimSpace raw) = some (kv.1, kv.2) := by
              rw [hkv]
            obtain ⟨hshape, _⟩ := kvMatch_some _ _ _ hkv2
            constructor
            · intro f hf
              rw [List.mem_append] at hf
              rcases hf with hf | hf
              · exact hgf f hf
              · rw [List.mem_singleton] at hf
                subst hf
                refine ⟨rfl, rfl, hshape, ?_, ?_⟩
                · exact ⟨dropAround_head?_not isQuote kv.2,
                    dropAround_getLast?_not isQuote kv.2⟩
                · by_cases hcse : s.currentSection = []
                  · rw [if_pos hcse]
                    exact Or.inl rfl
                  · rw [if_neg hcse]
                    refine Or.inr ⟨s.currentSection, rfl, ?_⟩
                    rcases hcs with hc | hc
                    · exact absurd hc hcse
                    · exact hc
            refine ⟨hcs, ?_, ?_⟩
            · intro hcse f hf
              rw [List.mem_append] at hf
              rcases hf with hf | hf
              · exact hnone hcse f hf
              · rw [List.mem_singleton] at hf
                subst hf
                simp only [if_pos hcse]
            · by_cases hcse : s.currentSection = []
              · apply NBS_of_all_none
                intro g hg
                rw [List.mem_append] at hg
                rcases hg with hg | hg
                · exact hnone hcse g hg
                · rw [List.mem_singleton] at hg
                  subst hg
                  simp only [if_pos hcse]
              · apply NBS_append_some _ _ hnbs
                simp only [if_neg hcse]
                exact Option.some_ne_none _

theorem scanLine_invB (s : ScanState) (raw : Str)
    (hB : ∀ e ∈ s.headerLines, GoodEntry e) (hnl : '\n' ∉ raw) :
    ∀ e ∈ (scanLine s raw).headerLines, GoodEntry e := by
  simp only [scanLine]
  by_cases h1 : trimSpace raw = []
  · rw [if_pos h1]; exact hB
  · rw [if_neg h1]
    by_cases h2 : headerStartMatch (trimSpace raw) = true
    · rw [if_pos h2]; exact hB
    · rw [if_neg h2]
      by_cases h3 : s.inHeader = true
      · rw [if_pos h3]
        by_cases h4 : (trimSpace raw).head? = some '#'
        · rw [if_pos h4]
          intro e he
          rw [List.mem_append] at he
          rcases he with he | he
          · exact hB e he
          · rw [List.mem_singleton] at he
            subst he
            obtain ⟨t, hlt⟩ : ∃ t, trimSpace raw = '#' :: t := by
              cases hc : trimSpace raw with
              | nil => exact absurd hc h1
              | cons a t =>
                rw [hc] at h4
                simp only [List.head?_cons, Option.some.injEq] at h4
                exact ⟨t, by rw [h4]⟩
            have htail : (trimSpace raw).tail = t := by rw [hlt]; rfl
            rw [htail]
            refine ⟨?_, ?_, ?_⟩
            · intro hmem
              have h1m : '\n' ∈ trimSpace raw := by
                rw [hlt]
                exact List.mem_cons_of_mem _ hmem
              exact hnl (mem_of_mem_dropAround isSpace raw _ h1m)
            · intro c hc
              apply trimSpace_getLast?_not raw c
              rw [hlt]
              cases ht : t with
              | nil => rw [ht] at hc; exact absurd hc (by simp)
              | cons a u =>
                rw [List.getLast?_cons_cons, ← ht, hc]
            · rw [headerStartMatch_hashLine_eq, ← hlt]
              rw [Bool.eq_false_iff]
              exact h2
        · rw [if_neg h4]; exact hB
      · rw [if_neg h3]
        by_cases h4 : (trimSpace raw).head? = some '#'
        · rw [if_pos h4]
          by_cases h5 : (trimSpace raw).tail = []
          · rw [if_pos h5]; exact hB
          · rw [if_neg h5]; exact hB
        · rw [if_neg h4]
          cases hkv : kvMatch (trimSpace raw) with
          | none => exact hB
          | some kv => exact hB

theorem scanFold_invA (lines : List Str) :
    ∀ (s : ScanState),
      ((∀ f ∈ s.fields, GoodField f) ∧
        (s.currentSection = [] ∨ GoodKey s.currentSection) ∧
        (s.currentSection = [] → ∀ f ∈ s.fields, f.Section = none) ∧
        NoneBeforeSome s.fields) →
      ((∀ f ∈ (lines.foldl scanLine s).fields, GoodField f) ∧
        ((lines.foldl scanLine s).currentSection = [] ∨
          GoodKey (lines.foldl scanLine s).currentSection) ∧
        ((lines.foldl scanLine s).currentSection = [] →
          ∀ f ∈ (lines.foldl scanLine s).fields, f.Section = none) ∧
        NoneBeforeSome (lines.foldl scanLine s).fields) := by
  induction lines with
  | nil => intro s hs; exact hs
  | cons l ls ih =>
    intro s hs
    rw [List.foldl_cons]
    exact ih (scanLine s l) (scanLine_invA s l hs)

theorem scanLines_invA (lines : List Str) :
    (∀ f ∈ (scanLines lines).fields, GoodField f) ∧
      ((scanLines lines).currentSection = [] ∨
        GoodKey (scanLines lines).currentSection) ∧
      ((scanLines lines).currentSection = [] →
        ∀ f ∈ (scanLines lines).fields, f.Section = none) ∧
      NoneBeforeSome (scanLines lines).fields := by
  apply scanFold_invA
  refine ⟨?_, Or.inl rfl, ?_, ?_⟩
  · intro f hf; exact absurd hf (by simp [initState])
  · intro _ f hf; exact absurd hf (by simp [initState])
  · intro i j hi _ _ _
    exact absurd hi (by simp [initState])

theorem scanFold_invB (lines : List Str) :
    ∀ (s : ScanState), (∀ e ∈ s.headerLines, GoodEntry e) →
      (∀ l ∈ lines, '\n' ∉ l) →
      ∀ e ∈ (lines.foldl scanLine s).headerLines, GoodEntry e := by
  induction lines with
  | nil => intro s hs _; exact hs
  | cons l ls ih =>
    intro s hs hnl
    rw [List.foldl_cons]
    exact ih (scanLine s l)
      (scanLine_invB s l hs (hnl l (List.mem_cons_self l ls)))
      (fun x hx => hnl x (List.mem_cons_of_mem l hx))

theorem scanLines_invB (lines : List Str) (hnl : ∀ l ∈ lines, '\n' ∉ l) :
    ∀ e ∈ (scanLines lines).headerLines, GoodEntry e := by
  apply scanFold_invB lines initState
  · intro e he; exact absurd he (by simp [initState])
  · exact hnl

/-! ## Concrete claim theorems (counterexamples and bug evaluations) -/

/-- C1: the claim requires the named-section buckets to be emitted in the
order of each section's first occurrence in the field sequence.  The Go
code iterates an unordered `map`, so the runtime may legally deliver the
keys in the reversed order, in which case the output shows
`# Redis Configuration` before `# Email Settings` even though
"Email Settings" occurs first in the field sequence — contradicting the
claim and the repository's own `TestSectionOrderPreservation`. -/
theorem sectionBucketOrder_bug :
    sectionKeys emailRedisItem =
      [str "Email Settings", str "Redis Configuration"] ∧
    ([str "Redis Configuration", str "Email Settings"]).Perm
      (sectionKeys emailRedisItem) ∧
    WriteItemToEnvFile emailRedisItem
        [str "Redis Configuration", str "Email Settings"] =
      [hashLine (str "Redis Configuration"),
       varLine { ID := [], Typ := str "STRING", Label := str "REDIS_HOST",
                 Value := str "localhost",
                 Section := some (str "Redis Configuration") },
       [],
       hashLine (str "Email Settings"),
       varLine { ID := [], Typ := str "STRING", Label := str "SMTP_HOST",
                 Value := str "smtp.gmail.com",
                 Section := some (str "Email Settings") },
       []] := by decide

/-- C3: serialize-then-parse-then-serialize is not byte-identical to
serialize.  On a record with a notes line "X", the first serialize emits
the note line `# X`; the parser strips only the `#` (keeping the space),
so the second serialize emits `#  X` — the bytes differ even when both
runs use the same (first-seen) key iteration order. -/
theorem serializeIdempotence_bug :
    render (WriteItemToEnvFile
        (ParseEnvFileToItem
          (WriteItemToEnvFile notesItem (sectionKeys notesItem)) (str "test"))
        (sectionKeys (ParseEnvFileToItem
          (WriteItemToEnvFile notesItem (sectionKeys notesItem)) (str "test")))) ≠
      render (WriteItemToEnvFile notesItem (sectionKeys notesItem)) := by decide

/-- C5: the parser does not strip the whitespace after the leading `#` of
an in-header comment line: `# X` parses to the note line `« X»` (leading
space kept), and the serializer then emits `#  X` with two spaces — the
claim (and the repository's own `TestCommentSpacingAndNewlines`) expects
the note line `X` and the re-emitted line `# X`. -/
theorem headerNoteSpacing_bug :
    (ParseEnvFileToItem headerNoteLines (str "t")).Fields =
      [{ ID := notesPlainId, Typ := str "STRING", Label := notesPlainId,
         Value := str " X", Section := none }] ∧
    WriteItemToEnvFile (ParseEnvFileToItem headerNoteLines (str "t"))
        (sectionKeys (ParseEnvFileToItem headerNoteLines (str "t"))) =
      [headerDashLine, hashLine (str " X"), headerDashLine, []] := by decide

/-- C4 counterexample: on the line `A=''x''` the claim's rule (strip
exactly one surrounding layer when first and last characters are the same
quote) yields `'x'`, but the code's `strings.Trim` strips every leading
and trailing quote character and stores `x`. -/
theorem quoteStrip_counterexample :
    (ParseEnvFileToItem [str "A=" ++ doubleQuoted] (str "t")).Fields =
      [{ ID := [], Typ := str "STRING", Label := str "A",
         Value := ['x'], Section := none }] ∧
    stripOneQuoteLayer doubleQuoted = [squote, 'x', squote] ∧
    (['x'] : Str) ≠ [squote, 'x', squote] := by decide

/-- C2 counterexample: the text `FOO=` consists only of recognized
constructs, yet its field (empty value) is dropped by the serializer, so
`parse(serialize(parse(text)))` loses the tuple (FOO, STRING, "", none)
that `parse(text)` contains. -/
theorem roundTrip_counterexample :
    (str "FOO", str "STRING", ([] : Str), (none : Option Str)) ∈
      envTuples (ParseEnvFileToItem emptyValueLines (str "t")) ∧
    (str "FOO", str "STRING", ([] : Str), (none : Option Str)) ∉
      envTuples (ParseEnvFileToItem
        (WriteItemToEnvFile (ParseEnvFileToItem emptyValueLines (str "t"))
          (sectionKeys (ParseEnvFileToItem emptyValueLines (str "t"))))
        (str "t")) := by decide

/-- C10 counterexample: the synthetic notes field is appended last and has
no section label, so in a record whose variables are all inside a section,
a field without a section (the notes field) follows a field with one —
refuting the claim for the full field sequence. -/
theorem ungroupedPrefix_counterexample :
    ¬ NoneBeforeSome (ParseEnvFileToItem sectionNotesLines (str "t")).Fields := by
  intro h
  have h10 := h 0 1 (by decide) (by decide) (by decide) (by decide)
  exact absurd h10 (by decide)

/-! ## Claim theorems: parser structure -/

/-- C8: the parser is total over the text content (it is a plain function
on the lines, with no error outcome), and every line that is not blank,
not a header delimiter, not an in-header comment, not a section marker,
and not a KEY=VALUE match leaves the scan state unchanged — it contributes
nothing to the result. -/
theorem parserSkipsUnrecognized (s : ScanState) (raw : Str)
    (h : recognizedLine s raw = false) : scanLine s raw = s := by
  simp only [recognizedLine, Bool.or_eq_false_iff] at h
  obtain ⟨⟨⟨⟨ha, hbm⟩, hc⟩, hd⟩, he⟩ := h
  simp only [scanLine]
  by_cases h1 : trimSpace raw = []
  · rw [if_pos h1]
  · rw [if_neg h1]
    rw [if_neg (by rw [hbm]; exact Bool.false_ne_true)]
    by_cases h3 : s.inHeader = true
    · rw [if_pos h3]
      by_cases h4 : (trimSpace raw).head? = some '#'
      · exfalso
        rw [h3, h4] at hc
        simp at hc
      · rw [if_neg h4]
    · rw [if_neg h3]
      rw [Bool.not_eq_true] at h3
      by_cases h4 : (trimSpace raw).head? = some '#'
      · rw [if_pos h4]
        by_cases h5 : (trimSpace raw).tail = []
        · rw [if_pos h5]
        · exfalso
          rw [h3, h4, hbm] at hd
          simp [h5] at hd
      · rw [if_neg h4]
        cases hkv : kvMatch (trimSpace raw) with
        | none => rfl
        | some kv =>
          exfalso
          rw [h3, hkv] at he
          simp at he

/-- Witness for C8 at a concrete unrecognized line: `foo=bar` (lower-case
key does not match the variable pattern) is skipped from the initial
state. -/
theorem parserSkipsUnrecognized_witness :
    recognizedLine initState (str "foo=bar") = false ∧
      scanLine initState (str "foo=bar") = initState :=
  ⟨by decide, parserSkipsUnrecognized initState (str "foo=bar") (by decide)⟩

/-- C9: in every parse result, a field with ID "notesPlain" exists exactly
when the scan collected at least one in-header comment line, and any such
field is the last element of the field sequence. -/
theorem notesFieldLast (lines : List Str) (title : Str) :
    ((∃ f ∈ (ParseEnvFileToItem lines title).Fields, f.ID = notesPlainId) ↔
      (scanLines lines).headerLines ≠ []) ∧
    (∀ f ∈ (ParseEnvFileToItem lines title).Fields, f.ID = notesPlainId →
      (ParseEnvFileToItem lines title).Fields.getLast? = some f) := by
  have hinv := (scanLines_invA lines).1
  simp only [ParseEnvFileToItem]
  by_cases hh : (scanLines lines).headerLines = []
  · rw [if_pos hh]
    rw [List.append_nil]
    constructor
    · constructor
      · intro hex
        obtain ⟨f, hf, hfid⟩ := hex
        have := (hinv f hf).1
        rw [this] at hfid
        exact absurd hfid.symm (by decide)
      · intro hne
        exact absurd hh hne
    · intro f hf hfid
      have := (hinv f hf).1
      rw [this] at hfid
      exact absurd hfid.symm (by decide)
  · rw [if_neg hh]
    constructor
    · constructor
      · intro _; exact hh
      · intro _
        refine ⟨_, List.mem_append_right _ (List.mem_singleton_self _), rfl⟩
    · intro f hf hfid
      rw [List.mem_append] at hf
      rcases hf with hf | hf
      · have := (hinv f hf).1
        rw [this] at hfid
        exact absurd hfid.symm (by decide)
      · rw [List.mem_singleton] at hf
        subst hf
        exact List.getLast?_concat _

/-- Witness for C9 at a concrete input with a header note and a variable:
the notes field is present and last. -/
theorem notesFieldLast_witness :
    ((∃ f ∈ (ParseEnvFileToItem sectionNotesLines (str "t")).Fields,
        f.ID = notesPlainId) ↔
      (scanLines sectionNotesLines).headerLines ≠ []) ∧
    (∀ f ∈ (ParseEnvFileToItem sectionNotesLines (str "t")).Fields,
      f.ID = notesPlainId →
      (ParseEnvFileToItem sectionNotesLines (str "t")).Fields.getLast? = some f) :=
  notesFieldLast sectionNotesLines (str "t")

/-- C10 (amended): restricted to the fields produced from KEY=VALUE lines
(every field other than the synthetic notes field), a field without a
section label always precedes every field with one: the current section
never reverts to none once set.  The unrestricted claim fails only because
the synthetic notes field (which carries no section) is appended last. -/
theorem ungroupedPrefix_amended (lines : List Str) (title : Str) :
    NoneBeforeSome ((ParseEnvFileToItem lines title).Fields.filter
      (fun f => decide (f.ID ≠ notesPlainId))) := by
  obtain ⟨hgf, _, _, hnbs⟩ := scanLines_invA lines
  simp only [ParseEnvFileToItem]
  rw [List.filter_append]
  have h1 : (scanLines lines).fields.filter
      (fun f => decide (f.ID ≠ notesPlainId)) = (scanLines lines).fields := by
    rw [List.filter_eq_self]
    intro f hf
    have := (hgf f hf).1
    rw [decide_eq_true_eq, this]
    decide
  have h2 : (if (scanLines lines).headerLines = [] then []
      else [({ ID := notesPlainId, Typ := str "STRING", Label := notesPlainId,
               Value := List.intercalate ['\n'] (scanLines lines).headerLines,
               Section := none } : OnePasswordField)]).filter
      (fun f => decide (f.ID ≠ notesPlainId)) = [] := by
    by_cases hh : (scanLines lines).headerLines = []
    · rw [if_pos hh]; rfl
    · rw [if_neg hh]
      simp
  rw [h1, h2, List.append_nil]
  exact hnbs

/-- Witness for C10 (amended) at the concrete input of the
counterexample. -/
theorem ungroupedPrefix_amended_witness :
    NoneBeforeSome ((ParseEnvFileToItem sectionNotesLines (str "t")).Fields.filter
      (fun f => decide (f.ID ≠ notesPlainId))) :=
  ungroupedPrefix_amended sectionNotesLines (str "t")

/-! ## Claim theorems: sensitivity heuristic and empty values -/

/-- C6: sensitivity is derived solely from the field name: the type is
CONCEALED exactly when the upper-cased name contains one of the nine
password keywords as a substring, and STRING otherwise; with the claim's
four examples evaluated. -/
theorem sensitivityHeuristic (name : Str) :
    (getFieldType name = str "CONCEALED" ↔
      ∃ kw ∈ passwordKeywords, ∃ s t, s ++ kw ++ t = name.map Char.toUpper) ∧
    (getFieldType name = str "CONCEALED" ∨ getFieldType name = str "STRING") ∧
    getFieldType (str "DATABASE_URL") = str "STRING" ∧
    getFieldType (str "API_KEY") = str "CONCEALED" ∧
    getFieldType (str "SMTP_PASS") = str "CONCEALED" ∧
    getFieldType (str "PORT") = str "STRING" := by
  refine ⟨?_, ?_, by decide, by decide, by decide, by decide⟩
  · unfold getFieldType
    by_cases h : passwordKeywords.any
        (fun kw => decide (kw <:+: name.map Char.toUpper)) = true
    · rw [if_pos h]
      simp only [List.any_eq_true, decide_eq_true_eq] at h
      constructor
      · intro _
        obtain ⟨kw, hkw, hinf⟩ := h
        obtain ⟨s, t, ht⟩ := hinf
        exact ⟨kw, hkw, s, t, ht⟩
      · intro _; rfl
    · rw [if_neg h]
      constructor
      · intro hco
        exact absurd hco (by decide)
      · intro hex
        exfalso
        apply h
        simp only [List.any_eq_true, decide_eq_true_eq]
        obtain ⟨kw, hkw, s, t, ht⟩ := hex
        exact ⟨kw, hkw, s, t, ht⟩
  · unfold getFieldType
    by_cases h : passwordKeywords.any
        (fun kw => decide (kw <:+: name.map Char.toUpper)) = true
    · rw [if_pos h]; exact Or.inl rfl
    · rw [if_neg h]; exact Or.inr rfl

/-- Witness for C6 at the concrete name API_KEY. -/
theorem sensitivityHeuristic_witness :
    (getFieldType (str "API_KEY") = str "CONCEALED" ↔
      ∃ kw ∈ passwordKeywords,
        ∃ s t, s ++ kw ++ t = (str "API_KEY").map Char.toUpper) ∧
    (getFieldType (str "API_KEY") = str "CONCEALED" ∨
      getFieldType (str "API_KEY") = str "STRING") ∧
    getFieldType (str "DATABASE_URL") = str "STRING" ∧
    getFieldType (str "API_KEY") = str "CONCEALED" ∧
    getFieldType (str "SMTP_PASS") = str "CONCEALED" ∧
    getFieldType (str "PORT") = str "STRING" :=
  sensitivityHeuristic (str "API_KEY")

theorem notesOf_filter (fields : List OnePasswordField) :
    notesOf (fields.filter
      (fun f => decide (f.ID = notesPlainId) || decide (f.Value ≠ []))) =
      notesOf fields := by
  unfold notesOf
  suffices h : ∀ (n : Str),
      (fields.filter
        (fun f => decide (f.ID = notesPlainId) || decide (f.Value ≠ []))).foldl
          (fun n f => if f.ID = notesPlainId then f.Value else n) n =
      fields.foldl (fun n f => if f.ID = notesPlainId then f.Value else n) n by
    exact h []
  induction fields with
  | nil => intro n; rfl
  | cons f rest ih =>
    intro n
    rw [List.filter_cons]
    by_cases hk : (decide (f.ID = notesPlainId) || decide (f.Value ≠ [])) = true
    · rw [if_pos hk]
      rw [List.foldl_cons, List.foldl_cons]
      exact ih _
    · rw [if_neg hk]
      rw [List.foldl_cons]
      have hid : f.ID ≠ notesPlainId := by
        rw [Bool.or_eq_true] at hk
        intro hc
        exact hk (Or.inl (by rw [decide_eq_true_eq]; exact hc))
      rw [if_neg hid]
      exact ih n

theorem buildGroups_filter (fields : List OnePasswordField) :
    buildGroups (fields.filter
      (fun f => decide (f.ID = notesPlainId) || decide (f.Value ≠ []))) =
      buildGroups fields := by
  unfold buildGroups
  suffices h : ∀ (g : List (Str × List OnePasswordField)),
      (fields.filter
        (fun f => decide (f.ID = notesPlainId) || decide (f.Value ≠ []))).foldl
          (fun g f =>
            if f.ID = notesPlainId then g
            else if f.Value = [] then g
            else insertGroup g (sectionNameOf f) f) g =
      fields.foldl
        (fun g f =>
          if f.ID = notesPlainId then g
          else if f.Value = [] then g
          else insertGroup g (sectionNameOf f) f) g by
    exact h []
  induction fields with
  | nil => intro g; rfl
  | cons f rest ih =>
    intro g
    rw [List.filter_cons]
    by_cases hk : (decide (f.ID = notesPlainId) || decide (f.Value ≠ [])) = true
    · rw [if_pos hk]
      rw [List.foldl_cons, List.foldl_cons]
      exact ih _
    · rw [if_neg hk]
      rw [List.foldl_cons]
      have hid : f.ID ≠ notesPlainId := by
        rw [Bool.or_eq_true] at hk
        intro hc
        exact hk (Or.inl (by rw [decide_eq_true_eq]; exact hc))
      have hv : f.Value = [] := by
        rw [Bool.or_eq_true] at hk
        by_contra hc
        exact hk (Or.inr (by rw [decide_eq_true_eq]; exact hc))
      rw [if_neg hid, if_pos hv]
      exact ih g

/-- C7: fields whose value is the empty string are never present in the
serializer's output: removing them from the record leaves the emitted
lines unchanged, for every record and every key iteration order; and a
record consisting only of an empty-valued field serializes to nothing. -/
theorem emptyValuesDropped (item : OnePasswordItem) (order : List Str) :
    WriteItemToEnvFile item order = WriteItemToEnvFile (dropEmptyFields item) order ∧
    WriteItemToEnvFile
      { Title := str "t",
        Fields := [{ ID := [], Typ := str "CONCEALED", Label := str "API_KEY",
                     Value := [], Section := none }] } [] = [] := by
  constructor
  · unfold WriteItemToEnvFile dropEmptyFields
    simp only []
    rw [notesOf_filter, buildGroups_filter]
  · decide

/-! ## Claim theorems: quote stripping -/

theorem dropAround_decomp (p : Char → Bool) (v : Str) :
    ∃ a b, v = a ++ dropAround p v ++ b ∧ (∀ c ∈ a, p c = true) ∧
      (∀ c ∈ b, p c = true) := by
  refine ⟨v.takeWhile p, ((v.dropWhile p).reverse.takeWhile p).reverse, ?_, ?_, ?_⟩
  · set x := v.dropWhile p with hx
    have h1 : v = v.takeWhile p ++ x := (List.takeWhile_append_dropWhile p v).symm
    have h2 : x = dropAround p v ++ (x.reverse.takeWhile p).reverse := by
      have h3 := List.takeWhile_append_dropWhile p x.reverse
      have h4 := congrArg List.reverse h3
      rw [List.reverse_append, List.reverse_reverse] at h4
      unfold dropAround
      rw [← hx]
      exact h4.symm
    rw [List.append_assoc, ← h2]
    exact h1
  · intro c hc
    exact List.mem_takeWhile_imp hc
  · intro c hc
    rw [List.mem_reverse] at hc
    exact List.mem_takeWhile_imp hc

/-- C4 (amended): on a matched KEY=VALUE line the parser stores
`strings.Trim(VALUE, quote-cutset)`: every leading and every trailing
quote character (single or double, any count, mixed) is removed, so the
stored value begins and ends with a non-quote character or is empty; and a
value `'quoted'` (or `"quoted"`) is stored as `quoted` and re-emitted
single-quoted. -/
theorem quoteStrip_amended :
    (∀ v : Str,
      (∃ a b, v = a ++ trimQuotes v ++ b ∧ (∀ c ∈ a, isQuote c = true) ∧
        (∀ c ∈ b, isQuote c = true)) ∧
      (∀ c, (trimQuotes v).head? = some c → isQuote c = false) ∧
      (∀ c, (trimQuotes v).getLast? = some c → isQuote c = false)) ∧
    (∀ (s : ScanState) (raw k v : Str), s.inHeader = false →
      trimSpace raw ≠ [] → headerStartMatch (trimSpace raw) = false →
      (trimSpace raw).head? ≠ some '#' →
      kvMatch (trimSpace raw) = some (k, v) →
      (scanLine s raw).fields = s.fields ++
        [{ ID := [], Typ := getFieldType k, Label := k, Value := trimQuotes v,
           Section := if s.currentSection = [] then none
                      else some s.currentSection }]) ∧
    (ParseEnvFileToItem [str "K=" ++ [squote] ++ str "quoted" ++ [squote]]
        (str "t")).Fields =
      [{ ID := [], Typ := str "STRING", Label := str "K",
         Value := str "quoted", Section := none }] ∧
    (ParseEnvFileToItem [str "K=" ++ ['"'] ++ str "quoted" ++ ['"']]
        (str "t")).Fields =
      [{ ID := [], Typ := str "STRING", Label := str "K",
         Value := str "quoted", Section := none }] ∧
    WriteItemToEnvFile
        (ParseEnvFileToItem [str "K=" ++ ['"'] ++ str "quoted" ++ ['"']] (str "t"))
        (sectionKeys (ParseEnvFileToItem
          [str "K=" ++ ['"'] ++ str "quoted" ++ ['"']] (str "t"))) =
      [str "K=" ++ [squote] ++ str "quoted" ++ [squote], []] := by
  refine ⟨?_, ?_, by decide, by decide, by decide⟩
  · intro v
    exact ⟨dropAround_decomp isQuote v, dropAround_head?_not isQuote v,
      dropAround_getLast?_not isQuote v⟩
  · intro s raw k v hH hne hm hnohash hkv
    simp only [scanLine]
    rw [if_neg hne, if_neg (by rw [hm]; exact Bool.false_ne_true),
      if_neg (by rw [hH]; exact Bool.false_ne_true), if_neg hnohash, hkv]

/-- Witness for C4 (amended): the scan-step clause applied to the concrete
line `K='x'` from the initial state. -/
theorem quoteStrip_amended_witness :
    (scanLine initState (str "K=" ++ [squote, 'x', squote])).fields =
      initState.fields ++
        [{ ID := [], Typ := getFieldType (str "K"), Label := str "K",
           Value := trimQuotes [squote, 'x', squote],
           Section := if initState.currentSection = [] then none
                      else some initState.currentSection }] :=
  quoteStrip_amended.2.1 initState (str "K=" ++ [squote, 'x', squote])
    (str "K") [squote, 'x', squote] (by decide) (by decide) (by decide)
    (by decide) (by decide)

/-! ## Scan of emitted blocks -/

theorem scanFold_varLines (fs : List OnePasswordField) :
    ∀ (s : ScanState), s.inHeader = false →
      (∀ f ∈ fs, f.ID = [] ∧ f.Typ = getFieldType f.Label ∧
        keyShape f.Label = true ∧ GoodValue f.Value ∧ f.Value ≠ [] ∧
        f.Section = (if s.currentSection = [] then none
                     else some s.currentSection)) →
      (fs.map varLine).foldl scanLine s = { s with fields := s.fields ++ fs } := by
  induction fs with
  | nil =>
    intro s _ _
    simp
  | cons f fs ih =>
    intro s hH hfs
    rw [List.map_cons, List.foldl_cons]
    obtain ⟨hid, hty, hks, hgv, hv, hsec⟩ := hfs f (List.mem_cons_self f fs)
    rw [scanLine_varLine s f hH hid hty hks hgv hv hsec]
    rw [ih { s with fields := s.fields ++ [f] } hH
      (fun g hg => hfs g (List.mem_cons_of_mem f hg))]
    simp

theorem scanFold_header_ex (ns : List Str) :
    ∀ (s : ScanState), s.inHeader = true →
      (∀ e ∈ ns, (∀ c, e.getLast? = some c → isSpace c = false) ∧
        headerStartMatch (hashLine e) = false) →
      ∃ hl, (ns.filterMap (fun l => if trimSpace l = [] then none
          else some (hashLine l))).foldl scanLine s =
        { s with headerLines := hl } := by
  induction ns with
  | nil =>
    intro s _ _
    exact ⟨s.headerLines, rfl⟩
  | cons e ns ih =>
    intro s hH hns
    rw [List.filterMap_cons]
    by_cases he : trimSpace e = []
    · rw [if_pos he]
      exact ih s hH (fun x hx => hns x (List.mem_cons_of_mem e hx))
    · rw [if_neg he]
      rw [List.foldl_cons]
      have hene : e ≠ [] := by
        intro hnil
        rw [hnil] at he
        exact he rfl
      obtain ⟨hlast, hm⟩ := hns e (List.mem_cons_self e ns)
      have hstep : scanLine s (hashLine e) =
          { s with headerLines := s.headerLines ++ [(hashLine e).tail] } :=
        scanLine_headerCollect s (hashLine e) hH
          (trimSpace_hashLine e hene hlast) (by simp [hashLine]) hm rfl
      rw [hstep]
      obtain ⟨hl, hfin⟩ := ih { s with headerLines := s.headerLines ++
        [(hashLine e).tail] } hH (fun x hx => hns x (List.mem_cons_of_mem e hx))
      exact ⟨hl, hfin⟩

theorem scanFold_headerPart_ex (ns : List Str) (s : ScanState)
    (hH : s.inHeader = false)
    (hns : ∀ e ∈ ns, (∀ c, e.getLast? = some c → isSpace c = false) ∧
      headerStartMatch (hashLine e) = false) :
    ∃ hl, (([headerDashLine] ++ ns.filterMap (fun l => if trimSpace l = [] then none
        else some (hashLine l)) ++ [headerDashLine, []]).foldl scanLine s) =
      { s with headerLines := hl } := by
  have hdelim : ∀ (u : ScanState), scanLine u headerDashLine =
      { u with inHeader := !u.inHeader } := by
    intro u
    exact scanLine_delim u headerDashLine (by decide) (by decide)
  rw [List.foldl_append, List.foldl_append]
  have h1 : List.foldl scanLine s [headerDashLine] =
      { s with inHeader := !s.inHeader } := by
    rw [List.foldl_cons, List.foldl_nil, hdelim]
  rw [h1]
  obtain ⟨hl, hmid⟩ := scanFold_header_ex ns
    { s with inHeader := !s.inHeader } (by rw [hH]; rfl) hns
  rw [hmid]
  have h3 : ∀ (u : ScanState), List.foldl scanLine u [headerDashLine, []] =
      { u with inHeader := !u.inHeader } := by
    intro u
    rw [List.foldl_cons, hdelim, List.foldl_cons,
      scanLine_blank _ [] rfl, List.foldl_nil]
  rw [h3]
  refine ⟨hl, ?_⟩
  have hs : s.inHeader = false := hH
  cases s
  simp only at hs
  subst hs
  rfl

theorem scanFold_sectionBlock (k : Str) (fs : List OnePasswordField)
    (s : ScanState) (hH : s.inHeader = false) (hk : GoodKey k)
    (hnd : headerStartMatch (hashLine k) = false)
    (hfs : ∀ f ∈ fs, f.ID = [] ∧ f.Typ = getFieldType f.Label ∧
      keyShape f.Label = true ∧ GoodValue f.Value ∧ f.Value ≠ [] ∧
      f.Section = some k) :
    (([hashLine k] ++ fs.map varLine ++ [[]]).foldl scanLine s) =
      { s with currentSection := k, fields := s.fields ++ fs } := by
  rw [List.foldl_append, List.foldl_append]
  have h1 : List.foldl scanLine s [hashLine k] = { s with currentSection := k } := by
    rw [List.foldl_cons, List.foldl_nil, scanLine_marker s k hH hk hnd]
  rw [h1]
  have hsec : ∀ f ∈ fs, f.ID = [] ∧ f.Typ = getFieldType f.Label ∧
      keyShape f.Label = true ∧ GoodValue f.Value ∧ f.Value ≠ [] ∧
      f.Section = (if ({ s with currentSection := k } : ScanState).currentSection = []
                   then none
                   else some ({ s with currentSection := k } : ScanState).currentSection) := by
    intro f hf
    obtain ⟨h1, h2, h3, h4, h5, h6⟩ := hfs f hf
    refine ⟨h1, h2, h3, h4, h5, ?_⟩
    simp only
    rw [if_neg hk.1]
    exact h6
  rw [scanFold_varLines fs { s with currentSection := k } hH hsec]
  have h2 : ∀ (u : ScanState), List.foldl scanLine u [[]] = u := by
    intro u
    rw [List.foldl_cons, scanLine_blank _ [] rfl, List.foldl_nil]
  rw [h2]

theorem scanFold_sectionPart_ex (g : List (Str × List OnePasswordField))
    (hg : ∀ k, k ≠ [] → ∀ f ∈ lookupGroup g k,
      f.ID = [] ∧ f.Typ = getFieldType f.Label ∧ keyShape f.Label = true ∧
      GoodValue f.Value ∧ f.Value ≠ [] ∧ f.Section = some k)
    (hgk : ∀ k, k ≠ [] → lookupGroup g k ≠ [] → GoodKey k)
    (hgd : ∀ k, k ≠ [] → lookupGroup g k ≠ [] →
      headerStartMatch (hashLine k) = false) :
    ∀ (order : List Str) (s : ScanState), s.inHeader = false →
      ∃ cs, ((order.flatMap (fun k =>
          if k = [] then []
          else
            if lookupGroup g k = [] then []
            else [hashLine k] ++ (lookupGroup g k).map varLine ++ [[]])).foldl
            scanLine s) =
        { s with currentSection := cs,
                 fields := s.fields ++ order.flatMap (fun k =>
                   if k = [] then [] else lookupGroup g k) } := by
  intro order
  induction order with
  | nil =>
    intro s _
    refine ⟨s.currentSection, ?_⟩
    simp
  | cons k order ih =>
    intro s hH
    rw [List.flatMap_cons, List.foldl_append]
    by_cases hk0 : k = []
    · rw [if_pos hk0, List.foldl_nil]
      obtain ⟨cs, hrec⟩ := ih s hH
      refine ⟨cs, ?_⟩
      rw [hrec]
      rw [List.flatMap_cons, if_pos hk0, List.nil_append]
    · rw [if_neg hk0]
      by_cases hb : lookupGroup g k = []
      · rw [if_pos hb, List.foldl_nil]
        obtain ⟨cs, hrec⟩ := ih s hH
        refine ⟨cs, ?_⟩
        rw [hrec]
        rw [List.flatMap_cons, if_neg hk0, hb, List.nil_append]
      · rw [if_neg hb]
        rw [scanFold_sectionBlock k (lookupGroup g k) s hH (hgk k hk0 hb)
          (hgd k hk0 hb) (hg k hk0)]
        obtain ⟨cs, hrec⟩ :=
          ih ⟨k, s.inHeader, s.headerLines, s.fields ++ lookupGroup g k⟩ hH
        refine ⟨cs, ?_⟩
        rw [hrec]
        rw [List.flatMap_cons, if_neg hk0]
        simp [List.append_assoc]

/-! ## Grouping (Go map) lemmas -/

theorem lookupGroup_cons (k : Str) (fs : List OnePasswordField)
    (rest : List (Str × List OnePasswordField)) (key : Str) :
    lookupGroup ((k, fs) :: rest) key =
      if k = key then fs else lookupGroup rest key := rfl

theorem lookup_insertGroup (g : List (Str × List OnePasswordField))
    (key key' : Str) (f : OnePasswordField) :
    lookupGroup (insertGroup g key f) key' =
      if key' = key then lookupGroup g key' ++ [f] else lookupGroup g key' := by
  induction g with
  | nil =>
    by_cases h : key' = key
    · rw [if_pos h]
      simp [insertGroup, lookupGroup, h]
    · rw [if_neg h]
      simp only [insertGroup, lookupGroup_cons, lookupGroup]
      rw [if_neg (fun hc => h (by rw [hc]))]
  | cons p rest ih =>
    obtain ⟨k, fs⟩ := p
    unfold insertGroup
    by_cases hk : k = key
    · rw [if_pos hk]
      subst hk
      rw [lookupGroup_cons, lookupGroup_cons]
      by_cases h2 : k = key'
      · rw [if_pos h2, if_pos h2, if_pos h2.symm]
      · rw [if_neg h2, if_neg h2, if_neg (fun hc => h2 hc.symm)]
    · rw [if_neg hk]
      rw [lookupGroup_cons, lookupGroup_cons]
      by_cases h2 : k = key'
      · have hne : ¬ key' = key := fun hc => hk (h2.trans hc)
        rw [if_pos h2, if_pos h2, if_neg hne]
      · rw [if_neg h2, if_neg h2, ih]

theorem buildGroups_fold_mem (Q : OnePasswordField → Str → Prop)
    (fields : List OnePasswordField) :
    ∀ (g : List (Str × List OnePasswordField)),
      (∀ f key, f ∈ lookupGroup g key → Q f key) →
      (∀ f ∈ fields, f.ID ≠ notesPlainId → f.Value ≠ [] → Q f (sectionNameOf f)) →
      ∀ f key, f ∈ lookupGroup (fields.foldl (fun g f =>
          if f.ID = notesPlainId then g
          else if f.Value = [] then g
          else insertGroup g (sectionNameOf f) f) g) key → Q f key := by
  induction fields with
  | nil =>
    intro g hg _ f key hf
    exact hg f key hf
  | cons f0 rest ih =>
    intro g hg hf f key hmem
    rw [List.foldl_cons] at hmem
    by_cases h0 : f0.ID = notesPlainId
    · rw [if_pos h0] at hmem
      exact ih g hg (fun x hx => hf x (List.mem_cons_of_mem f0 hx)) f key hmem
    · rw [if_neg h0] at hmem
      by_cases h1 : f0.Value = []
      · rw [if_pos h1] at hmem
        exact ih g hg (fun x hx => hf x (List.mem_cons_of_mem f0 hx)) f key hmem
      · rw [if_neg h1] at hmem
        refine ih (insertGroup g (sectionNameOf f0) f0) ?_
          (fun x hx => hf x (List.mem_cons_of_mem f0 hx)) f key hmem
        intro f1 key1 hf1
        rw [lookup_insertGroup] at hf1
        by_cases h2 : key1 = sectionNameOf f0
        · rw [if_pos h2] at hf1
          rw [List.mem_append] at hf1
          rcases hf1 with hf1 | hf1
          · exact hg f1 key1 hf1
          · rw [List.mem_singleton] at hf1
            rw [h2, hf1]
            exact hf f0 (List.mem_cons_self f0 rest) h0 h1
        · rw [if_neg h2] at hf1
          exact hg f1 key1 hf1

theorem lookupGroup_buildGroups_mem (fields : List OnePasswordField)
    (f : OnePasswordField) (key : Str)
    (h : f ∈ lookupGroup (buildGroups fields) key) :
    f ∈ fields ∧ f.ID ≠ notesPlainId ∧ f.Value ≠ [] ∧ sectionNameOf f = key := by
  refine buildGroups_fold_mem
    (fun f key => f ∈ fields ∧ f.ID ≠ notesPlainId ∧ f.Value ≠ [] ∧
      sectionNameOf f = key) fields [] ?_ ?_ f key h
  · intro f1 key1 hf1
    exact absurd hf1 (by simp [lookupGroup])
  · intro f1 hf1 hid hv
    exact ⟨hf1, hid, hv, rfl⟩

theorem insertGroup_flatMap_perm (g : List (Str × List OnePasswordField))
    (key : Str) (f : OnePasswordField) :
    ((insertGroup g key f).flatMap Prod.snd).Perm
      (g.flatMap Prod.snd ++ [f]) := by
  induction g with
  | nil => simp [insertGroup]
  | cons p rest ih =>
    obtain ⟨k, fs⟩ := p
    unfold insertGroup
    by_cases hk : k = key
    · rw [if_pos hk]
      rw [List.flatMap_cons, List.flatMap_cons]
      simp only [List.append_assoc]
      exact List.Perm.append_left fs
        (by simpa using
          (List.perm_append_comm :
            ([f] ++ rest.flatMap Prod.snd).Perm (rest.flatMap Prod.snd ++ [f])))
    · rw [if_neg hk]
      rw [List.flatMap_cons, List.flatMap_cons]
      simp only [List.append_assoc]
      exact List.Perm.append_left fs ih

theorem buildGroups_fold_perm (fields : List OnePasswordField) :
    ∀ (g : List (Str × List OnePasswordField)),
      ((fields.foldl (fun g f =>
          if f.ID = notesPlainId then g
          else if f.Value = [] then g
          else insertGroup g (sectionNameOf f) f) g).flatMap Prod.snd).Perm
        (g.flatMap Prod.snd ++ fields.filter
          (fun f => decide (f.ID ≠ notesPlainId) && decide (f.Value ≠ []))) := by
  induction fields with
  | nil =>
    intro g
    simp
  | cons f0 rest ih =>
    intro g
    rw [List.foldl_cons, List.filter_cons]
    by_cases h0 : f0.ID = notesPlainId
    · rw [if_pos h0]
      have hlv : (decide (f0.ID ≠ notesPlainId) && decide (f0.Value ≠ [])) = false := by
        simp [h0]
      rw [hlv]
      exact ih g
    · rw [if_neg h0]
      by_cases h1 : f0.Value = []
      · rw [if_pos h1]
        have hlv : (decide (f0.ID ≠ notesPlainId) && decide (f0.Value ≠ [])) = false := by
          simp [h1]
        rw [hlv]
        exact ih g
      · have hlv : (decide (f0.ID ≠ notesPlainId) && decide (f0.Value ≠ [])) = true := by
          simp [h0, h1]
        rw [if_neg h1, hlv]
        refine (ih (insertGroup g (sectionNameOf f0) f0)).trans ?_
        refine ((insertGroup_flatMap_perm g (sectionNameOf f0) f0).append_right _).trans ?_
        simp [List.append_assoc]

theorem buildGroups_perm (fields : List OnePasswordField) :
    ((buildGroups fields).flatMap Prod.snd).Perm
      (fields.filter (fun f => decide (f.ID ≠ notesPlainId) &&
        decide (f.Value ≠ []))) := by
  have h := buildGroups_fold_perm fields []
  simpa [buildGroups] using h

theorem insertGroup_keys (g : List (Str × List OnePasswordField)) (key : Str)
    (f : OnePasswordField) :
    (insertGroup g key f).map Prod.fst =
      if key ∈ g.map Prod.fst then g.map Prod.fst
      else g.map Prod.fst ++ [key] := by
  induction g with
  | nil => simp [insertGroup]
  | cons p rest ih =>
    obtain ⟨k, fs⟩ := p
    unfold insertGroup
    by_cases hk : k = key
    · rw [if_pos hk]
      subst hk
      simp
    · rw [if_neg hk]
      have hk2 : ¬ key = k := fun hc => hk hc.symm
      by_cases h2 : key ∈ rest.map Prod.fst
      · simp [ih, h2, hk2, List.mem_cons]
      · simp [ih, h2, hk2, List.mem_cons]

theorem buildGroups_fold_nodup (fields : List OnePasswordField) :
    ∀ (g : List (Str × List OnePasswordField)), (g.map Prod.fst).Nodup →
      ((fields.foldl (fun g f =>
          if f.ID = notesPlainId then g
          else if f.Value = [] then g
          else insertGroup g (sectionNameOf f) f) g).map Prod.fst).Nodup := by
  induction fields with
  | nil => intro g hg; exact hg
  | cons f0 rest ih =>
    intro g hg
    rw [List.foldl_cons]
    by_cases h0 : f0.ID = notesPlainId
    · rw [if_pos h0]; exact ih g hg
    · rw [if_neg h0]
      by_cases h1 : f0.Value = []
      · rw [if_pos h1]; exact ih g hg
      · rw [if_neg h1]
        apply ih
        rw [insertGroup_keys]
        by_cases h2 : sectionNameOf f0 ∈ g.map Prod.fst
        · rw [if_pos h2]; exact hg
        · rw [if_neg h2]
          rw [List.nodup_append]
          exact ⟨hg, List.nodup_singleton _, by
            intro a ha hb
            rw [List.mem_singleton] at hb
            subst hb
            exact h2 ha⟩

theorem buildGroups_nodup (fields : List OnePasswordField) :
    ((buildGroups fields).map Prod.fst).Nodup := by
  have h := buildGroups_fold_nodup fields [] (by simp)
  simpa [buildGroups] using h

theorem lookup_eq_nil_of_not_mem (g : List (Str × List OnePasswordField))
    (key : Str) (h : key ∉ g.map Prod.fst) : lookupGroup g key = [] := by
  induction g with
  | nil => rfl
  | cons p rest ih =>
    obtain ⟨k, fs⟩ := p
    rw [lookupGroup_cons, if_neg ?_]
    · exact ih (fun hc => h (List.mem_cons_of_mem _ hc))
    · intro hc
      subst hc
      exact h (by simp)

theorem flatMap_lookup_eq (g : List (Str × List OnePasswordField))
    (hnd : (g.map Prod.fst).Nodup) :
    (g.map Prod.fst).flatMap (lookupGroup g) = g.flatMap Prod.snd := by
  induction g with
  | nil => rfl
  | cons p rest ih =>
    obtain ⟨k, fs⟩ := p
    rw [List.map_cons] at hnd ⊢
    rw [List.nodup_cons] at hnd
    obtain ⟨hk, hrest⟩ := hnd
    rw [List.flatMap_cons, List.flatMap_cons]
    rw [lookupGroup_cons, if_pos rfl]
    congr 1
    have hcongr : (rest.map Prod.fst).flatMap (lookupGroup ((k, fs) :: rest)) =
        (rest.map Prod.fst).flatMap (lookupGroup rest) := by
      apply List.flatMap_congr
      intro x hx
      rw [lookupGroup_cons, if_neg ?_]
      intro hc
      subst hc
      exact hk hx
    rw [hcongr]
    exact ih hrest

theorem emitted_perm (g : List (Str × List OnePasswordField)) (order : List Str)
    (hnd : (g.map Prod.fst).Nodup) (hperm : order.Perm (g.map Prod.fst)) :
    (lookupGroup g [] ++ order.flatMap (fun k =>
      if k = [] then [] else lookupGroup g k)).Perm (g.flatMap Prod.snd) := by
  have h1 : (order.flatMap (fun k => if k = [] then []
      else lookupGroup g k)).Perm ((g.map Prod.fst).flatMap (fun k =>
        if k = [] then [] else lookupGroup g k)) :=
    hperm.flatMap_right _
  refine ((h1.append_left (lookupGroup g [])).trans ?_)
  by_cases hmem : ([] : Str) ∈ g.map Prod.fst
  · obtain ⟨u, v, huv⟩ := List.append_of_mem hmem
    rw [huv]
    have hnd2 : (u ++ [] :: v).Nodup := by rw [← huv]; exact hnd
    rw [List.nodup_append] at hnd2
    obtain ⟨hu, hv0, hdisj⟩ := hnd2
    rw [List.nodup_cons] at hv0
    obtain ⟨hnv, hv⟩ := hv0
    have hnu : ([] : Str) ∉ u := fun hc => hdisj hc (List.mem_cons_self _ _)
    rw [List.flatMap_append, List.flatMap_cons, if_pos rfl]
    have hcu : u.flatMap (fun k => if k = [] then [] else lookupGroup g k) =
        u.flatMap (lookupGroup g) := by
      apply List.flatMap_congr
      intro x hx
      rw [if_neg (fun hc => hnu (by rw [← hc]; exact hx))]
    have hcv : v.flatMap (fun k => if k = [] then [] else lookupGroup g k) =
        v.flatMap (lookupGroup g) := by
      apply List.flatMap_congr
      intro x hx
      rw [if_neg (fun hc => hnv (by rw [← hc]; exact hx))]
    rw [hcu, hcv]
    have hgoal : (lookupGroup g [] ++ (u.flatMap (lookupGroup g) ++
        ([] ++ v.flatMap (lookupGroup g)))).Perm
        (u.flatMap (lookupGroup g) ++
          (lookupGroup g [] ++ v.flatMap (lookupGroup g))) := by
      rw [List.nil_append, ← List.append_assoc, ← List.append_assoc]
      exact List.Perm.append_right _ (List.perm_append_comm)
    refine hgoal.trans ?_
    have := flatMap_lookup_eq g hnd
    rw [huv] at this
    rw [List.flatMap_append, List.flatMap_cons] at this
    rw [this]
  · rw [lookup_eq_nil_of_not_mem g [] hmem, List.nil_append]
    have hc : (g.map Prod.fst).flatMap (fun k => if k = [] then []
        else lookupGroup g k) = (g.map Prod.fst).flatMap (lookupGroup g) := by
      apply List.flatMap_congr
      intro x hx
      rw [if_neg (fun hcn => hmem (by rw [← hcn]; exact hx))]
    rw [hc, flatMap_lookup_eq g hnd]

/-! ## Notes extraction lemmas and parse-produced items -/

theorem notesOf_eq_nil (fields : List OnePasswordField)
    (h : ∀ f ∈ fields, f.ID ≠ notesPlainId) : notesOf fields = [] := by
  unfold notesOf
  suffices hgen : ∀ (n : Str),
      fields.foldl (fun n f => if f.ID = notesPlainId then f.Value else n) n = n by
    exact hgen []
  induction fields with
  | nil => intro n; rfl
  | cons f rest ih =>
    intro n
    rw [List.foldl_cons, if_neg (h f (List.mem_cons_self f rest))]
    exact ih (fun x hx => h x (List.mem_cons_of_mem f hx)) n

theorem notesOf_concat_notes (fields : List OnePasswordField)
    (nf : OnePasswordField) (h : nf.ID = notesPlainId) :
    notesOf (fields ++ [nf]) = nf.Value := by
  unfold notesOf
  rw [List.foldl_append, List.foldl_cons, if_pos h, List.foldl_nil]

theorem parse_goodItem (lines : List Str) (title : Str)
    (hnl : ∀ l ∈ lines, '\n' ∉ l) :
    GoodItem (ParseEnvFileToItem lines title) := by
  obtain ⟨hgf, _, _, _⟩ := scanLines_invA lines
  have hB := scanLines_invB lines hnl
  have hid : ∀ f ∈ (scanLines lines).fields, f.ID ≠ notesPlainId := by
    intro f hf
    rw [(hgf f hf).1]
    decide
  constructor
  · intro f hf hfid _
    simp only [ParseEnvFileToItem] at hf
    rw [List.mem_append] at hf
    rcases hf with hf | hf
    · exact hgf f hf
    · by_cases hh : (scanLines lines).headerLines = []
      · rw [if_pos hh] at hf
        exact absurd hf (by simp)
      · rw [if_neg hh] at hf
        rw [List.mem_singleton] at hf
        exfalso
        apply hfid
        rw [hf]
  · intro nl hnlm
    by_cases hh : (scanLines lines).headerLines = []
    · have hn0 : notesOf (ParseEnvFileToItem lines title).Fields = [] := by
        simp only [ParseEnvFileToItem]
        rw [if_pos hh, List.append_nil]
        exact notesOf_eq_nil _ hid
      rw [hn0] at hnlm
      have : nl = [] := by
        have hsp : ([] : Str).splitOn '\n' = [[]] := rfl
        rw [hsp, List.mem_singleton] at hnlm
        exact hnlm
      subst this
      refine ⟨?_, by decide⟩
      intro c hc
      exact absurd hc (by simp)
    · have hn1 : notesOf (ParseEnvFileToItem lines title).Fields =
          List.intercalate ['\n'] (scanLines lines).headerLines := by
        simp only [ParseEnvFileToItem]
        rw [if_neg hh]
        exact notesOf_concat_notes _ _ rfl
      rw [hn1] at hnlm
      have hsp : (List.intercalate ['\n']
          (scanLines lines).headerLines).splitOn '\n' =
          (scanLines lines).headerLines := by
        apply List.splitOn_intercalate
        · intro l hl
          exact (hB l hl).1
        · exact hh
      rw [hsp] at hnlm
      obtain ⟨_, h2, h3⟩ := hB nl hnlm
      exact ⟨h2, h3⟩

/-! ## Round-trip assembly -/

theorem foldl_blankOnly (u : ScanState) : List.foldl scanLine u [[]] = u := by
  rw [List.foldl_cons, scanLine_blank _ [] rfl, List.foldl_nil]

theorem liveFields_parse (lines : List Str) (title : Str) (cs : Str)
    (hls : List Str) (F : List OnePasswordField)
    (h : scanLines lines = (⟨cs, false, hls, F⟩ : ScanState))
    (hF : ∀ f ∈ F, f.ID = [] ∧ f.Value ≠ []) :
    liveFields (ParseEnvFileToItem lines title) = F := by
  unfold liveFields
  simp only [ParseEnvFileToItem, h]
  show (F ++ (if hls = [] then []
      else [({ ID := notesPlainId, Typ := str "STRING", Label := notesPlainId,
               Value := List.intercalate ['\n'] hls,
               Section := none } : OnePasswordField)])).filter
      (fun f => decide (f.ID ≠ notesPlainId) && decide (f.Value ≠ [])) = F
  rw [List.filter_append]
  have hA : F.filter
      (fun f => decide (f.ID ≠ notesPlainId) && decide (f.Value ≠ [])) = F := by
    rw [List.filter_eq_self]
    intro f hf
    obtain ⟨h1, h5⟩ := hF f hf
    rw [h1]
    simp [h5]
    decide
  have hB : (if hls = [] then []
      else [({ ID := notesPlainId, Typ := str "STRING", Label := notesPlainId,
               Value := List.intercalate ['\n'] hls,
               Section := none } : OnePasswordField)]).filter
      (fun f => decide (f.ID ≠ notesPlainId) && decide (f.Value ≠ [])) = [] := by
    by_cases hh : hls = []
    · rw [if_pos hh]; rfl
    · rw [if_neg hh]
      simp
  rw [hA, hB, List.append_nil]

theorem write_parse_live (item : OnePasswordItem) (title : Str)
    (order : List Str) (hgood : GoodItem item)
    (hfence : ∀ k ∈ sectionKeys item, headerStartMatch (hashLine k) = false)
    (hperm : order.Perm (sectionKeys item)) :
    (liveFields (ParseEnvFileToItem (WriteItemToEnvFile item order)
      title)).Perm (liveFields item) := by
  obtain ⟨hgf, hnotes⟩ := hgood
  have hmem : ∀ (key : Str) (f : OnePasswordField),
      f ∈ lookupGroup (buildGroups item.Fields) key →
      f ∈ item.Fields ∧ f.ID ≠ notesPlainId ∧ f.Value ≠ [] ∧
        sectionNameOf f = key :=
    fun key f h => lookupGroup_buildGroups_mem item.Fields f key h
  have hgoodf : ∀ (key : Str) (f : OnePasswordField),
      f ∈ lookupGroup (buildGroups item.Fields) key → GoodField f := by
    intro key f h
    obtain ⟨h1, h2, h3, _⟩ := hmem key f h
    exact hgf f h1 h2 h3
  have hbg : ∀ (k : Str), k ≠ [] →
      ∀ f ∈ lookupGroup (buildGroups item.Fields) k,
      f.ID = [] ∧ f.Typ = getFieldType f.Label ∧ keyShape f.Label = true ∧
      GoodValue f.Value ∧ f.Value ≠ [] ∧ f.Section = some k := by
    intro k hk f hf
    obtain ⟨hm1, hm2, hm3, hm4⟩ := hmem k f hf
    obtain ⟨g1, g2, g3, g4, g5⟩ := hgoodf k f hf
    refine ⟨g1, g2, g3, g4, hm3, ?_⟩
    rcases g5 with hnone | ⟨k2, hk2, _⟩
    · exfalso
      apply hk
      rw [← hm4]
      unfold sectionNameOf
      rw [hnone]
      rfl
    · rw [hk2]
      have hkk : sectionNameOf f = k2 := by
        unfold sectionNameOf
        rw [hk2]
        rfl
      rw [← hm4, hkk]
  have hgk : ∀ (k : Str), k ≠ [] →
      lookupGroup (buildGroups item.Fields) k ≠ [] → GoodKey k := by
    intro k hk hb
    obtain ⟨f, hf⟩ : ∃ f, f ∈ lookupGroup (buildGroups item.Fields) k := by
      cases hc : lookupGroup (buildGroups item.Fields) k with
      | nil => exact absurd hc hb
      | cons a t => exact ⟨a, List.mem_cons_self a t⟩
    obtain ⟨_, _, _, hm4⟩ := hmem k f hf
    obtain ⟨_, _, _, _, g5⟩ := hgoodf k f hf
    rcases g5 with hnone | ⟨k2, hk2, hgk2⟩
    · exfalso
      apply hk
      rw [← hm4]
      unfold sectionNameOf
      rw [hnone]
      rfl
    · have hkk : k2 = k := by
        have h2 : sectionNameOf f = k2 := by
          unfold sectionNameOf
          rw [hk2]
          rfl
        rw [← h2, hm4]
      rw [← hkk]
      exact hgk2
  have hgd : ∀ (k : Str), k ≠ [] →
      lookupGroup (buildGroups item.Fields) k ≠ [] →
      headerStartMatch (hashLine k) = false := by
    intro k _ hb
    apply hfence
    unfold sectionKeys
    by_contra hnot
    exact hb (lookup_eq_nil_of_not_mem (buildGroups item.Fields) k hnot)
  have hb0 : ∀ f ∈ lookupGroup (buildGroups item.Fields) [],
      f.ID = [] ∧ f.Typ = getFieldType f.Label ∧ keyShape f.Label = true ∧
      GoodValue f.Value ∧ f.Value ≠ [] ∧ f.Section = none := by
    intro f hf
    obtain ⟨hm1, hm2, hm3, hm4⟩ := hmem [] f hf
    obtain ⟨g1, g2, g3, g4, g5⟩ := hgoodf [] f hf
    refine ⟨g1, g2, g3, g4, hm3, ?_⟩
    rcases g5 with hnone | ⟨k2, hk2, hgk2⟩
    · exact hnone
    · exfalso
      apply hgk2.1
      have h2 : sectionNameOf f = k2 := by
        unfold sectionNameOf
        rw [hk2]
        rfl
      rw [← h2, hm4]
  -- decompose the write into its three parts and scan them
  have hwrite : WriteItemToEnvFile item order =
      (if notesOf item.Fields = [] then []
       else [headerDashLine] ++
         ((notesOf item.Fields).splitOn '\n').filterMap (fun l =>
           if trimSpace l = [] then none else some (hashLine l)) ++
         [headerDashLine, []]) ++
      ((if lookupGroup (buildGroups item.Fields) [] = [] then []
        else (lookupGroup (buildGroups item.Fields) []).map varLine ++ [[]]) ++
      (order.flatMap (fun k =>
        if k = [] then []
        else
          if lookupGroup (buildGroups item.Fields) k = [] then []
          else [hashLine k] ++
            (lookupGroup (buildGroups item.Fields) k).map varLine ++ [[]]))) := by
    simp only [WriteItemToEnvFile]
    rw [List.append_assoc]
  have hs1 : ∃ hl1, List.foldl scanLine initState
      (if notesOf item.Fields = [] then []
       else [headerDashLine] ++
         ((notesOf item.Fields).splitOn '\n').filterMap (fun l =>
           if trimSpace l = [] then none else some (hashLine l)) ++
         [headerDashLine, []]) = (⟨[], false, hl1, []⟩ : ScanState) := by
    by_cases hn : notesOf item.Fields = []
    · rw [if_pos hn, List.foldl_nil]
      exact ⟨[], rfl⟩
    · rw [if_neg hn]
      obtain ⟨hl, hfin⟩ := scanFold_headerPart_ex
        ((notesOf item.Fields).splitOn '\n') initState rfl hnotes
      exact ⟨hl, hfin⟩
  have hs2 : ∀ (hl1 : List Str),
      List.foldl scanLine (⟨[], false, hl1, []⟩ : ScanState)
        (if lookupGroup (buildGroups item.Fields) [] = [] then []
         else (lookupGroup (buildGroups item.Fields) []).map varLine ++ [[]]) =
      (⟨[], false, hl1, lookupGroup (buildGroups item.Fields) []⟩ : ScanState) := by
    intro hl1
    by_cases hb : lookupGroup (buildGroups item.Fields) [] = []
    · rw [if_pos hb, List.foldl_nil, hb]
    · rw [if_neg hb, List.foldl_append]
      have hf : ∀ f ∈ lookupGroup (buildGroups item.Fields) [],
          f.ID = [] ∧ f.Typ = getFieldType f.Label ∧ keyShape f.Label = true ∧
          GoodValue f.Value ∧ f.Value ≠ [] ∧
          f.Section = (if (⟨[], false, hl1, []⟩ : ScanState).currentSection = []
                       then none
                       else some (⟨[], false, hl1,
                         []⟩ : ScanState).currentSection) := by
        intro f hff
        obtain ⟨h1, h2, h3, h4, h5, h6⟩ := hb0 f hff
        exact ⟨h1, h2, h3, h4, h5, by rw [h6]; rfl⟩
      rw [scanFold_varLines (lookupGroup (buildGroups item.Fields) [])
        ⟨[], false, hl1, []⟩ rfl hf]
      rw [foldl_blankOnly]
      simp
  have hs3 : ∀ (hl1 : List Str), ∃ cs, List.foldl scanLine
      (⟨[], false, hl1, lookupGroup (buildGroups item.Fields) []⟩ : ScanState)
      (order.flatMap (fun k =>
        if k = [] then []
        else
          if lookupGroup (buildGroups item.Fields) k = [] then []
          else [hashLine k] ++
            (lookupGroup (buildGroups item.Fields) k).map varLine ++ [[]])) =
      (⟨cs, false, hl1, lookupGroup (buildGroups item.Fields) [] ++
        order.flatMap (fun k =>
          if k = [] then []
          else lookupGroup (buildGroups item.Fields) k)⟩ : ScanState) := by
    intro hl1
    obtain ⟨cs, hfin⟩ := scanFold_sectionPart_ex (buildGroups item.Fields)
      hbg hgk hgd order
      ⟨[], false, hl1, lookupGroup (buildGroups item.Fields) []⟩ rfl
    exact ⟨cs, hfin⟩
  obtain ⟨hl1, h1⟩ := hs1
  obtain ⟨cs, h3⟩ := hs3 hl1
  have hscan : scanLines (WriteItemToEnvFile item order) =
      (⟨cs, false, hl1, lookupGroup (buildGroups item.Fields) [] ++
        order.flatMap (fun k =>
          if k = [] then []
          else lookupGroup (buildGroups item.Fields) k)⟩ : ScanState) := by
    unfold scanLines
    rw [hwrite, List.foldl_append, List.foldl_append, h1, hs2 hl1, h3]
  have hFfacts : ∀ f ∈ (lookupGroup (buildGroups item.Fields) [] ++
      order.flatMap (fun k =>
        if k = [] then []
        else lookupGroup (buildGroups item.Fields) k)),
      f.ID = [] ∧ f.Value ≠ [] := by
    intro f hf
    rw [List.mem_append] at hf
    rcases hf with hf | hf
    · obtain ⟨ha, _, _, _, hb, _⟩ := hb0 f hf
      exact ⟨ha, hb⟩
    · rw [List.mem_flatMap] at hf
      obtain ⟨k, hk, hfk⟩ := hf
      by_cases hk0 : k = []
      · rw [if_pos hk0] at hfk
        exact absurd hfk (by simp)
      · rw [if_neg hk0] at hfk
        obtain ⟨ha, _, _, _, hb, _⟩ := hbg k hk0 f hfk
        exact ⟨ha, hb⟩
  rw [liveFields_parse (WriteItemToEnvFile item order) title cs hl1 _
    hscan hFfacts]
  refine (emitted_perm (buildGroups item.Fields) order
    (buildGroups_nodup item.Fields) hperm).trans ?_
  exact buildGroups_perm item.Fields

/-- The fence hypothesis of the amended round-trip theorem below is
necessary: the input line `#` + VT + `---` is not a header delimiter (the
regexps' `\s` does not match VT) but is a section marker whose captured
label `strings.TrimSpace`s (which does trim VT) to `---`; the emitted
marker `# ---` for that label matches the delimiter on reparse, opening a
header block that swallows the following variable, so the live tuple of
`A=1` is lost. -/
theorem dashSectionCollision :
    (ParseEnvFileToItem ['#' :: '\x0b' :: str "---", str "A=1"]
        (str "t")).Fields =
      [{ ID := [], Typ := str "STRING", Label := str "A", Value := str "1",
         Section := some (str "---") }] ∧
    liveTuples (ParseEnvFileToItem
      (WriteItemToEnvFile
        (ParseEnvFileToItem ['#' :: '\x0b' :: str "---", str "A=1"] (str "t"))
        (sectionKeys (ParseEnvFileToItem
          ['#' :: '\x0b' :: str "---", str "A=1"] (str "t"))))
      (str "t")) = [] := by
  decide

/-- C2 (amended): for any input lines without embedded newlines, provided
no section label of the parse result yields a marker line `# label`
matching the header delimiter pattern `^#\s*-+\s*$` (equivalently by
`hashLine_delim_iff`: no label consists solely of dashes — such labels
are reachable, e.g. from the input line `#` + VT + `---`, because VT is
whitespace for `strings.TrimSpace` but not for the regexps' `\s`; see
`dashSectionCollision`), and for any legal key iteration order,
parse-serialize-parse preserves the set of {name, sensitivity, value,
section} tuples of the non-notes fields with non-empty values (the
serializer deliberately drops empty-valued fields, and the notes field
is the separately-handled header; see the counterexample for the
unrestricted claim). -/
theorem roundTripTuples (lines : List Str) (title : Str) (order : List Str)
    (hnl : ∀ l ∈ lines, '\n' ∉ l)
    (hfence : ∀ k ∈ sectionKeys (ParseEnvFileToItem lines title),
      headerStartMatch (hashLine k) = false)
    (hperm : order.Perm (sectionKeys (ParseEnvFileToItem lines title))) :
    ∀ t, t ∈ liveTuples (ParseEnvFileToItem
        (WriteItemToEnvFile (ParseEnvFileToItem lines title) order) title) ↔
      t ∈ liveTuples (ParseEnvFileToItem lines title) := by
  intro t
  have hgood := parse_goodItem lines title hnl
  have hp := write_parse_live (ParseEnvFileToItem lines title) title order
    hgood hfence hperm
  unfold liveTuples
  exact (hp.map tupleOf).mem_iff

/-- Witness for C2 (amended) at the concrete input of the repository's
round-trip test shape: one ungrouped variable, one section with a
concealed variable. -/
theorem roundTripTuples_witness :
    (∀ l ∈ [str "A=1", str "# S", str "B_KEY=2"], '\n' ∉ l) ∧
    (∀ k ∈ sectionKeys (ParseEnvFileToItem [str "A=1", str "# S", str "B_KEY=2"]
      (str "t")), headerStartMatch (hashLine k) = false) ∧
    (sectionKeys (ParseEnvFileToItem [str "A=1", str "# S", str "B_KEY=2"]
      (str "t"))).Perm (sectionKeys (ParseEnvFileToItem
        [str "A=1", str "# S", str "B_KEY=2"] (str "t"))) ∧
    ((str "B_KEY", str "CONCEALED", str "2", some (str "S")) ∈
        liveTuples (ParseEnvFileToItem
          (WriteItemToEnvFile (ParseEnvFileToItem
            [str "A=1", str "# S", str "B_KEY=2"] (str "t"))
            (sectionKeys (ParseEnvFileToItem
              [str "A=1", str "# S", str "B_KEY=2"] (str "t")))) (str "t")) ↔
      (str "B_KEY", str "CONCEALED", str "2", some (str "S")) ∈
        liveTuples (ParseEnvFileToItem [str "A=1", str "# S", str "B_KEY=2"]
          (str "t"))) :=
  ⟨by decide, by decide, List.Perm.refl _,
    roundTripTuples [str "A=1", str "# S", str "B_KEY=2"] (str "t")
      (sectionKeys (ParseEnvFileToItem [str "A=1", str "# S", str "B_KEY=2"]
        (str "t"))) (by decide) (by decide) (List.Perm.refl _)
      (str "B_KEY", str "CONCEALED", str "2", some (str "S"))⟩

end OpDotenv
